import Mathlib

/-!
Verification of the size-chart extraction engine of the `shoppin-assignment`
repository.  The development shallowly embeds the Python sources:

* `src/src/utils/parser.py`   — text cleanup, table normalization, table scoring
* `src/src/extractors/base.py` — product discovery pipeline and store extraction
* `src/src/utils/gemini_extractor.py` — normalization of vision-model results
* `src/src/service.py`        — store-level error containment

Python strings are modelled as `List Char`; BeautifulSoup documents are
modelled by the inductive `Node` type below, with `get_text`, `find` and
`find_all` translated as recursive descendant traversals, exactly as
BeautifulSoup performs them.  Confidence scores, which the source accumulates
in increments of 0.1 / 0.2 / 0.3 / 0.04·k floats, are represented exactly in
hundredths as natural numbers (0.1 ↦ 10, the 0.3 threshold ↦ 30); every
increment in the source is an exact multiple of 0.04, so this scaling is exact.
Fallible effects (HTTP fetches, the vision model) are modelled with `Except` /
`Option` oracles passed as parameters.
-/

set_option maxRecDepth 40000

namespace Shoppin

/-! ## Python text primitives (`parser.py` lines 11-17, `clean_text`)

`clean_text` does `re.sub(r'\s+', ' ', text.strip())`, then
`re.sub(r'[​ ]', ' ', text)`, then `.strip()`.  Python's `\s` and
`str.strip()` treat the ASCII whitespace characters and U+00A0 as whitespace
(we restrict to that set; it is the set exercised by the repository's data),
while U+200B is not whitespace and is only handled by the second substitution.
-/

/-- Whitespace as recognised by Python's `\s` regex class and `str.strip()`,
restricted to ASCII whitespace plus the non-breaking space U+00A0. -/
def isPySpace (c : Char) : Bool :=
  c.toNat = 32 || c.toNat = 9 || c.toNat = 10 || c.toNat = 13 ||
  c.toNat = 11 || c.toNat = 12 || c.toNat = 160

/-- Python `str.strip()`: drop leading and trailing whitespace. -/
def pyStrip (s : List Char) : List Char :=
  ((s.dropWhile isPySpace).reverse.dropWhile isPySpace).reverse

/-- One pass of `re.sub(r'\s+', ' ', s)`: every maximal run of whitespace
becomes a single space.  The boolean records whether the previous character
belonged to a whitespace run. -/
def collapseWs (prevWs : Bool) : List Char → List Char
  | [] => []
  | c :: cs =>
    if isPySpace c then
      if prevWs then collapseWs true cs else ' ' :: collapseWs true cs
    else c :: collapseWs false cs

/-- The substitution `re.sub(r'[​ ]', ' ', s)`. -/
def replaceZw (s : List Char) : List Char :=
  s.map fun c => if c.toNat = 8203 || c.toNat = 160 then ' ' else c

/-- Embedding of `SizeChartParser.clean_text` (`parser.py` lines 11-17). -/
def clean_text (s : List Char) : List Char :=
  pyStrip (replaceZw (collapseWs false (pyStrip s)))

/-- Python `str.lower()` (ASCII case folding, which is all the sources use). -/
def pyLower (s : List Char) : List Char := s.map Char.toLower

/-- Python `' '.join(strings)`. -/
def joinSpace : List (List Char) → List Char
  | [] => []
  | [h] => h
  | h :: h₂ :: t => h ++ ' ' :: joinSpace (h₂ :: t)

/-- Shorthand turning a string literal into the `List Char` text model. -/
def cs (s : String) : List Char := s.toList

/-! ## The document model

BeautifulSoup tags are elements carrying a tag name, a class list, an `id`
attribute (absent modelled as `[]`) and ordered children; strings are text
nodes.  `get_text()` concatenates all descendant text without separators;
`find` / `find_all` search all descendants in document order; a tag is truthy
iff it has at least one child (BS4 `Tag.__bool__` falls back to
`len(contents)`). -/

mutual
inductive Node where
  | text (s : List Char)
  | elem (name : String) (classes : List (List Char)) (idAttr : List Char)
      (children : NodeList)
inductive NodeList where
  | nil
  | cons (n : Node) (ns : NodeList)
end

/-- Converts an ordinary list of nodes into the child-list representation
(the mutual `NodeList` type keeps all tree traversals structurally
recursive, hence computable by the kernel). -/
def nl : List Node → NodeList
  | [] => .nil
  | n :: ns => .cons n (nl ns)

/-- Emptiness of a child list. -/
def nlIsEmpty : NodeList → Bool
  | .nil => true
  | .cons _ _ => false

/-- Tag name of a node (text nodes have none). -/
def nodeName : Node → String
  | .text _ => ""
  | .elem n _ _ _ => n

/-- Class attribute of a node; `[]` models an absent attribute, matching
`tag.get('class', [])`. -/
def nodeClasses : Node → List (List Char)
  | .text _ => []
  | .elem _ cls _ _ => cls

/-- The `id` attribute, `tag.get('id', '')`. -/
def nodeId : Node → List Char
  | .text _ => []
  | .elem _ _ i _ => i

/-- Python truthiness of a BS4 tag: `len(tag.contents) > 0`; of a string:
nonempty. -/
def truthy : Node → Bool
  | .text s => !s.isEmpty
  | .elem _ _ _ ch => !nlIsEmpty ch

/-- Text of a forest of nodes: `get_text()` concatenation in document order. -/
def getTextList : NodeList → List Char
  | .nil => []
  | .cons (.text s) ns => s ++ getTextList ns
  | .cons (.elem _ _ _ ch) ns => getTextList ch ++ getTextList ns

/-- BeautifulSoup `tag.get_text()`. -/
def getTextOne (t : Node) : List Char :=
  match t with
  | .text s => s
  | .elem _ _ _ ch => getTextList ch

/-- Descendants of the listed nodes (or of their subtrees) whose tag name is in
`names`, in document order: `find_all(names)` over a forest. -/
def findAllList (names : List String) : NodeList → List Node
  | .nil => []
  | .cons (.text _) ns => findAllList names ns
  | .cons (.elem nm cls ida ch) ns =>
    (if nm ∈ names then [Node.elem nm cls ida ch] else []) ++
      findAllList names ch ++ findAllList names ns

/-- BeautifulSoup `tag.find_all(names)`: matching descendants of `t` in
document order (`t` itself is not a candidate). -/
def findAllNodes (names : List String) (t : Node) : List Node :=
  match t with
  | .text _ => []
  | .elem _ _ _ ch => findAllList names ch

/-- BeautifulSoup `tag.find(name)`: the first matching descendant. -/
def findElem (names : List String) (t : Node) : Option Node :=
  (findAllNodes names t).head?

/-! ## Table normalization: `SizeChartParser.extract_table_data`
(`parser.py` lines 19-76). -/

/-- Python dict assignment `d[k] = v` on an insertion-ordered dict: updates the
value in place if the key exists, otherwise appends. -/
def dictInsert (k v : List Char) : List (List Char × List Char) → List (List Char × List Char)
  | [] => [(k, v)]
  | (k₀, v₀) :: rest =>
    if k₀ = k then (k₀, v) :: rest else (k₀, v₀) :: dictInsert k v rest

/-- Condition of `parser.py` line 37 for one cell:
`cell.get('class') and 'header' in ' '.join(cell.get('class', []))`. -/
def headerClassCond (cell : Node) : Bool :=
  !(nodeClasses cell).isEmpty && decide (cs "header" <:+: joinSpace (nodeClasses cell))

/-- First branch of header inference (`parser.py` lines 24-31): the first row
of a truthy `<thead>`, reading `th`/`td` cell text. -/
def theadHeaders (table : Node) : List (List Char) :=
  match findElem ["thead"] table with
  | some thead =>
    if truthy thead then
      match findElem ["tr"] thead with
      | some hr =>
        if truthy hr then
          (findAllNodes ["th", "td"] hr).map (fun c => clean_text (getTextOne c))
        else []
      | none => []
    else []
  | none => []

/-- The `cells[0].name == 'th'` test of `parser.py` line 37. -/
def firstIsTh (cells : List Node) : Bool :=
  match cells.head? with
  | some c => decide (nodeName c = "th")
  | none => false

/-- Headers of a table (`parser.py` lines 21-39): the `<thead>` first row if it
produced a nonempty list, otherwise the table's first `<tr>` provided its first
cell is a `<th>` or every cell has a class containing `"header"`. -/
def headersOf (table : Node) : List (List Char) :=
  let hs := theadHeaders table
  if hs.isEmpty then
    match findElem ["tr"] table with
    | some fr =>
      let cells := findAllNodes ["th", "td"] fr
      if !cells.isEmpty && (firstIsTh cells || cells.all headerClassCond) then
        cells.map (fun c => clean_text (getTextOne c))
      else []
    | none => []
  else hs

/-- BeautifulSoup `cell.find('span', class_='default')` (`parser.py` line 62):
first descendant `<span>` whose class list contains the class `default`. -/
def findSpanDefault (cell : Node) : Option Node :=
  ((findAllNodes ["span"] cell).filter (fun n => decide (cs "default" ∈ nodeClasses n))).head?

/-- Value extracted from one cell (`parser.py` lines 62-69): if the cell holds
a `default`-classed span, use that span's text, suffixing `" CM"` unless the
column is the first header; otherwise the cell's own cleaned text. -/
def cellValue (headers : List (List Char)) (header : List Char) (cell : Node) : List Char :=
  match findSpanDefault cell with
  | some sp =>
    let v := clean_text (getTextOne sp)
    if header ≠ headers.getD 0 [] then v ++ cs " CM" else v
  | none => clean_text (getTextOne cell)

/-- The `for i, cell in enumerate(cells)` loop of `parser.py` lines 54-71,
building `row_data`: indices at or beyond the header count are skipped. -/
def buildRowAux (headers : List (List Char)) :
    Nat → List Node → List (List Char × List Char) → List (List Char × List Char)
  | _, [], rd => rd
  | i, cell :: rest, rd =>
    buildRowAux headers (i + 1) rest
      (if headers.length ≤ i then rd
       else dictInsert (headers.getD i []) (cellValue headers (headers.getD i []) cell) rd)

/-- Row mapping built from a list of cells (`parser.py` lines 54-71). -/
def buildRowData (headers : List (List Char)) (cells : List Node) :
    List (List Char × List Char) :=
  buildRowAux headers 0 cells []

/-- The body container (`parser.py` line 41): `table.find('tbody') or table`
(an empty `<tbody>` is falsy, so the table itself is used). -/
def tbodyOf (table : Node) : Node :=
  match findElem ["tbody"] table with
  | some tb => if truthy tb then tb else table
  | none => table

/-- One iteration of the row loop of `parser.py` lines 42-74: skip rows with
no cells, skip a row restating the headers, append the built mapping when it
is nonempty. -/
def rowStep (headers : List (List Char))
    (acc : List (List (List Char × List Char))) (tr : Node) :
    List (List (List Char × List Char)) :=
  let cells := findAllNodes ["td", "th"] tr
  if cells.isEmpty then acc
  else if !headers.isEmpty && cells.length = headers.length &&
      decide (cells.map (fun c => clean_text (getTextOne c)) = headers) then acc
  else
    let rd := buildRowData headers cells
    if rd.isEmpty then acc else acc ++ [rd]

/-- The row loop of `parser.py` lines 42-74 for a fixed header list. -/
def rowsOfWith (headers : List (List Char)) (table : Node) :
    List (List (List Char × List Char)) :=
  (findAllNodes ["tr"] (tbodyOf table)).foldl (rowStep headers) []

/-- Embedding of `SizeChartParser.extract_table_data` (`parser.py` 19-76). -/
def extract_table_data (table : Node) :
    List (List Char) × List (List (List Char × List Char)) :=
  let headers := headersOf table
  (headers, rowsOfWith headers table)

/-! ## Table scoring: `SizeChartParser.find_size_charts` (`parser.py` 78-131)

The three regexes of lines 87-91 are embedded as dedicated scanners
implementing Python `re.findall` semantics for exactly those patterns:
left-to-right scan, non-overlapping matches, alternatives tried in source
order with backtracking, greedy quantifiers.  `\w` is modelled as ASCII
alphanumeric or underscore, the set exercised by the repository's data. -/

/-- Python regex `\w` word character (ASCII fragment). -/
def isWordChar (c : Char) : Bool := c.isAlphanum || c = '_'

/-- Boundary test `\b` placed after a match: `lastWord` tells whether the last
matched character is a word character; the boundary holds iff exactly one side
is a word character (end of input counts as non-word). -/
def wordBoundaryAfter (lastWord : Bool) (rest : List Char) : Bool :=
  match rest with
  | [] => lastWord
  | c :: _ => lastWord != isWordChar c

/-- Alternatives of `\b(xs|s|m|l|xl|xxl|xxxl|small|medium|large)\b` in source
order (the scorer applies it to already-lowercased text, so `re.I` is moot). -/
def p1Alts : List (List Char) :=
  [cs "xs", cs "s", cs "m", cs "l", cs "xl", cs "xxl", cs "xxxl",
   cs "small", cs "medium", cs "large"]

/-- Attempt the size-token pattern at the current position (leading `\b`
already checked by the scanner); returns the match length. -/
def p1TryAt (s : List Char) : Option Nat :=
  p1Alts.findSome? fun alt =>
    if alt.isPrefixOf s && wordBoundaryAfter true (s.drop alt.length) then
      some alt.length
    else none

/-- Generic `findall`-style scan: at each position not inside a previous match
(`skip` counts remaining consumed characters) and with no word character
immediately before, try the pattern; successes are counted and their
characters consumed. -/
def scanCount (tryAt : List Char → Option Nat) : List Char → Bool → Nat → Nat
  | [], _, _ => 0
  | c :: rest, _, skip + 1 => scanCount tryAt rest (isWordChar c) skip
  | c :: rest, prevWord, 0 =>
    if prevWord then scanCount tryAt rest (isWordChar c) 0
    else
      match tryAt (c :: rest) with
      | some len => 1 + scanCount tryAt rest (isWordChar c) (len - 1)
      | none => scanCount tryAt rest (isWordChar c) 0

/-- Count of `re.findall` matches of the size-token pattern. -/
def p1Count (s : List Char) : Nat := scanCount p1TryAt s false 0

/-- Unit alternatives of `\b\d{2,3}\s*(cm|inch|in|")\b` with the wordness of
their final character (which drives the trailing `\b`). -/
def p2Alts : List (List Char × Bool) :=
  [(cs "cm", true), (cs "inch", true), (cs "in", true), (cs "\"", false)]

/-- Try the unit alternation plus trailing `\b` at the current position. -/
def p2AltCheck (s : List Char) : Option Nat :=
  p2Alts.findSome? fun p =>
    if p.1.isPrefixOf s && wordBoundaryAfter p.2 (s.drop p.1.length) then
      some p.1.length
    else none

/-- Attempt `\b\d{2,3}\s*(cm|inch|in|")\b` at the current position: greedy
digit count (3 then 2), then greedy backtracking `\s*`, then the alternation. -/
def p2TryAt (s : List Char) : Option Nat :=
  [3, 2].findSome? fun d =>
    if (s.take d).length = d && (s.take d).all Char.isDigit then
      let r1 := s.drop d
      let maxWs := (r1.takeWhile isPySpace).length
      (List.range (maxWs + 1)).reverse.findSome? fun k =>
        match p2AltCheck (r1.drop k) with
        | some al => some (d + k + al)
        | none => none
    else none

/-- Count of `re.findall` matches of the numeric-with-unit pattern. -/
def p2Count (s : List Char) : Nat := scanCount p2TryAt s false 0

/-- Alternatives of `\b(chest|waist|hip|bust)\s*[:=]?\s*\d+` in source order. -/
def p3Alts : List (List Char) := [cs "chest", cs "waist", cs "hip", cs "bust"]

/-- Attempt the measurement-label pattern at the current position, with greedy
backtracking for both `\s*` runs and the optional `[:=]`. -/
def p3TryAt (s : List Char) : Option Nat :=
  p3Alts.findSome? fun alt =>
    if alt.isPrefixOf s then
      let r1 := s.drop alt.length
      let w1 := (r1.takeWhile isPySpace).length
      (List.range (w1 + 1)).reverse.findSome? fun k1 =>
        let r2 := r1.drop k1
        let opts : List Nat :=
          match r2 with
          | c :: _ => if c = ':' || c = '=' then [1, 0] else [0]
          | [] => [0]
        opts.findSome? fun o =>
          let r3 := r2.drop o
          let w2 := (r3.takeWhile isPySpace).length
          (List.range (w2 + 1)).reverse.findSome? fun k2 =>
            let r4 := r3.drop k2
            let ds := (r4.takeWhile Char.isDigit).length
            if ds = 0 then none else some (alt.length + k1 + o + k2 + ds)
    else none

/-- Count of `re.findall` matches of the measurement-label pattern. -/
def p3Count (s : List Char) : Nat := scanCount p3TryAt s false 0

/-- One pattern's contribution (`parser.py` 103-106):
`0.2 * min(len(matches)/5, 1.0)` when any match exists, i.e. exactly
`0.04 * min(count, 5)`, in hundredths. -/
def patContrib (cnt : Nat) : Nat := if cnt ≠ 0 then 4 * min cnt 5 else 0

/-- Total contribution of the three regex patterns. -/
def patternScore (text : List Char) : Nat :=
  patContrib (p1Count text) + patContrib (p2Count text) + patContrib (p3Count text)

/-- The keyword list of `parser.py` lines 81-85. -/
def size_keywords : List (List Char) :=
  [cs "size", cs "chart", cs "measurement", cs "dimension", cs "sizing",
   cs "fit", cs "length", cs "width", cs "chest", cs "waist", cs "hip",
   cs "shoulder", cs "sleeve", cs "bust", cs "inseam", cs "size guide"]

/-- The keyword loops of `parser.py` lines 99-101 and 111-113: for each
keyword occurring in `text` (substring test) add `w` to the accumulator. -/
def kwFold (w : Nat) (text : List Char) (c : Nat) : Nat :=
  size_keywords.foldl (fun acc k => if decide (k <:+: text) then acc + w else acc) c

/-- Lower-cased full table text, `table.get_text().lower()`. -/
def tableTextLower (t : Node) : List Char := pyLower (getTextOne t)

/-- Lower-cased joined header text, `' '.join(headers).lower()`. -/
def headerTextLower (headers : List (List Char)) : List Char :=
  pyLower (joinSpace headers)

/-- The ancestor keywords of `parser.py` line 121. -/
def ancKeywords : List (List Char) := [cs "size", cs "chart", cs "sizing"]

/-- Test of `parser.py` lines 120-121 on one ancestor:
`' '.join(parent.get('class', [])) + ' ' + parent.get('id', '')` contains one
of the keywords, case-insensitively. -/
def ancMatch (p : Node) : Bool :=
  ancKeywords.any fun k =>
    decide (k <:+: pyLower (joinSpace (nodeClasses p) ++ ' ' :: nodeId p))

/-- The ancestor walk of `parser.py` lines 118-124: walk the ancestor chain
(nearest first) up to but excluding the first `body` tag; the first matching
ancestor adds 0.3 and stops the walk.  (Real ancestors are always truthy —
they contain the table — so `while parent` corresponds to list exhaustion.) -/
def ancContrib : List Node → Nat → Nat
  | [], c => c
  | p :: rest, c =>
    if nodeName p = "body" then c
    else if ancMatch p then c + 30
    else ancContrib rest c

/-- Confidence assigned to one table occurrence (`parser.py` lines 96-124),
in hundredths: keyword membership (+0.1 each), regex patterns, speculative
normalization bonuses (+0.2 per keyword in the joined header text, +0.1 for a
row count in [2,20]) when headers and rows are both nonempty, and the ancestor
bonus. -/
def confidence (t : Node) (anc : List Node) : Nat :=
  let table_text := tableTextLower t
  let c1 := kwFold 10 table_text 0
  let c2 := c1 + patternScore table_text
  let hr := extract_table_data t
  let c3 :=
    if !hr.1.isEmpty && !hr.2.isEmpty then
      let cH := kwFold 20 (headerTextLower hr.1) c2
      if 2 ≤ hr.2.length && hr.2.length ≤ 20 then cH + 10 else cH
    else c2
  ancContrib anc c3

/-- All `table` descendants of a forest in document order, each paired with
its ancestor chain (nearest first), for `soup.find_all('table')` plus the
`table.parent` walk. -/
def collectTablesIn (anc : List Node) : NodeList → List (Node × List Node)
  | .nil => []
  | .cons (.text _) ns => collectTablesIn anc ns
  | .cons (.elem nm cls ida ch) ns =>
    (if nm = "table" then [(Node.elem nm cls ida ch, anc)] else []) ++
      collectTablesIn (Node.elem nm cls ida ch :: anc) ch ++ collectTablesIn anc ns

/-- Tables of a document with their ancestor chains (the chain ends with the
document node itself, whose parent is `None`). -/
def collectTables (soup : Node) : List (Node × List Node) :=
  match soup with
  | .text _ => []
  | .elem nm cls ida ch => collectTablesIn [Node.elem nm cls ida ch] ch

/-- Stable insertion of a scored table into a descending-sorted list: the new
element (earlier in document order) goes before the first entry whose score
does not exceed it. -/
def insertDesc (x : Node × Nat) : List (Node × Nat) → List (Node × Nat)
  | [] => [x]
  | y :: ys => if x.2 ≥ y.2 then x :: y :: ys else y :: insertDesc x ys

/-- Stable descending sort by score.  Python's `list.sort(key=score,
reverse=True)` is also stable, and a stable sort is uniquely determined by
sortedness plus stability, so the two agree extensionally. -/
def sortByConfDesc : List (Node × Nat) → List (Node × Nat)
  | [] => []
  | x :: xs => insertDesc x (sortByConfDesc xs)

/-- Embedding of `SizeChartParser.find_size_charts` (`parser.py` 78-131):
score every table, keep those scoring strictly above 0.3, sort descending. -/
def find_size_charts (soup : Node) : List (Node × Nat) :=
  sortByConfDesc
    (((collectTables soup).map fun p => (p.1, confidence p.1 p.2)).filter
      fun p => 30 < p.2)

/-! ## Product discovery: `BaseExtractor` (`base.py` lines 52-198)

Network effects are oracles in a `World`: each fetch either raises (modelled
as `Except.error`) or returns decoded data.  A product entry of a feed is its
optional `handle` value (`product.get('handle')`); the empty string is falsy
in Python, so it produces no URL. -/

/-- The network oracle for one store. -/
structure World where
  /-- `GET {store}/products.json?page={p}&limit=250` decoded to the product
  list (`data.get('products', [])` already applied). -/
  feed : Nat → Except String (List (Option String))
  /-- `GET {store}/collections.json` decoded to the collection handles; a
  response without a `collections` key behaves like `.ok []`. -/
  collectionsData : Except String (List (Option String))
  /-- `GET {collection_url}/products.json` decoded to the product list. -/
  collFeed : String → Except String (List (Option String))
  /-- `GET {store}/sitemap.xml`: the `<loc>` texts of the root sitemap. -/
  sitemapIndex : Except String (List String)
  /-- one nested sitemap fetch: the `<loc>` texts of that sitemap. -/
  subSitemap : String → Except String (List String)

/-- URL built by `urljoin(self.store_url, f'/products/{handle}')`. -/
def mkProductUrl (store handle : String) : String := store ++ "/products/" ++ handle

/-- The `for product in products: handle = product.get('handle'); if handle:`
loops of `base.py` lines 108-112 and 158-162. -/
def handleUrls (store : String) (products : List (Option String)) : List String :=
  products.filterMap fun h? =>
    h?.bind fun h => if h = "" then none else some (mkProductUrl store h)

/-- The `while len(products) < max_products` paging loop of
`get_shopify_products_json` (`base.py` lines 69-98): fetch page `page`, stop on
fetch failure (keeping `acc`), on an empty page, or after a page of fewer than
250 items; append at most `max_products - len(products)` items per page. -/
def getPagesLoop (feed : Nat → Except String (List (Option String))) (maxP : Nat)
    (page : Nat) (acc : List (Option String)) : List (Option String) :=
  if _h : acc.length < maxP then
    match feed page with
    | .error _ => acc
    | .ok ps =>
      if hps : ps.isEmpty then acc
      else
        let acc' := acc ++ ps.take (maxP - acc.length)
        if ps.length < 250 then acc'
        else getPagesLoop feed maxP (page + 1) acc'
  else acc
termination_by maxP - acc.length
decreasing_by
  simp only [List.length_append, List.length_take]
  rcases ps with _ | ⟨p, ps⟩
  · simp at hps
  · simp only [List.length_cons]
    omega

/-- Embedding of `get_shopify_products_json` (`base.py` 69-100): page through
the product feed starting at page 1. -/
def get_shopify_products_json (w : World) (maxP : Nat) : List (Option String) :=
  getPagesLoop w.feed maxP 1 []

/-- Embedding of `get_collections` (`base.py` 52-67): collection-page URLs, or
`[]` if the index fetch raises. -/
def get_collections (w : World) (store : String) : List String :=
  match w.collectionsData with
  | .error _ => []
  | .ok handles =>
    handles.filterMap fun h? =>
      h?.bind fun h => if h = "" then none else some (store ++ "/collections/" ++ h)

/-- Embedding of `_get_products_from_collection` (`base.py` 150-168): product
URLs of one collection, `[]` if its fetch raises. -/
def collProducts (w : World) (store : String) (collectionUrl : String) : List String :=
  match w.collFeed collectionUrl with
  | .error _ => []
  | .ok ps => handleUrls store ps

/-- The collection loop of `get_product_urls` (`base.py` 124-130): crawl the
given collections in order, stopping once `max_products` URLs accumulated. -/
def collLoop (w : World) (store : String) (maxP : Nat) :
    List String → List String → List String
  | [], acc => acc
  | cu :: rest, acc =>
    let acc' := acc ++ collProducts w store cu
    if maxP ≤ acc'.length then acc' else collLoop w store maxP rest acc'

/-- The nested-sitemap loop of `_get_products_from_sitemap` (`base.py`
184-196): a failing nested fetch aborts the loop but keeps prior results. -/
def sitemapLoop (w : World) : List String → List String → List String
  | [], acc => acc
  | u :: rest, acc =>
    match w.subSitemap u with
    | .error _ => acc
    | .ok locs => sitemapLoop w rest (acc ++ locs.filter fun l => decide (cs "/products/" <:+: cs l))

/-- Embedding of `_get_products_from_sitemap` (`base.py` 170-198): the root
sitemap fetch is outside any `try`, so its failure propagates. -/
def sitemapProducts (w : World) : Except String (List String) :=
  match w.sitemapIndex with
  | .error e => .error e
  | .ok locs =>
    .ok (sitemapLoop w (locs.filter fun u => decide (cs ".xml" <:+: cs u)) [])

/-- The discovery strategies, recorded in the order their code runs. -/
inductive Strat where
  | feed | collections | sitemap
deriving DecidableEq, Repr

/-- URLs produced by the fallback strategies once the structured feed yielded
nothing (`base.py` 120-144): collection crawl, then — only when it yielded
nothing — the sitemap crawl (whose failure is caught, yielding nothing). -/
def fallbackUrls (w : World) (store : String) (maxP : Nat) : List String :=
  let collUrls := collLoop w store maxP ((get_collections w store).take 10) []
  if collUrls.isEmpty then
    match sitemapProducts w with
    | .error _ => []
    | .ok sm => collUrls ++ sm
  else collUrls

/-- Python `list(dict.fromkeys(xs))` keeps the first occurrence of each key. -/
def dedupAux (seen : List String) : List String → List String
  | [] => []
  | x :: xs => if x ∈ seen then dedupAux seen xs else x :: dedupAux (x :: seen) xs

/-- Deduplication preserving first-occurrence order (`base.py` line 146). -/
def dedupFirst (xs : List String) : List String := dedupAux [] xs

/-- Embedding of `get_product_urls` (`base.py` 103-148), instrumented with the
list of strategies whose code was attempted, in order.  When the structured
feed yields at least one URL the function returns those URLs directly
(`base.py` line 116) — the dedup/truncation of lines 146-148 is only
reached on the fallback paths. -/
def get_product_urls (w : World) (store : String) (maxP : Nat) :
    List String × List Strat :=
  if !(handleUrls store (get_shopify_products_json w maxP)).isEmpty then
    (handleUrls store (get_shopify_products_json w maxP), [.feed])
  else
    ((dedupFirst (fallbackUrls w store maxP)).take maxP,
     if (collLoop w store maxP ((get_collections w store).take 10) []).isEmpty then
       [.feed, .collections, .sitemap]
     else [.feed, .collections])

/-! ## Store extraction: `extract_all` (`base.py` 200-231),
`extract_stores` (`service.py` 51-70) and the vision-model normalization
(`gemini_extractor.py` 104-126). -/

/-- A size chart in the output shape (`models/size_chart.py`): headers plus
insertion-ordered row mappings. -/
structure SizeChart where
  headers : List String
  rows : List (List (String × String))
deriving DecidableEq, Repr

/-- A product (`models/size_chart.py`). -/
structure Product where
  product_title : String
  product_url : String
  size_chart : Option SizeChart
deriving DecidableEq, Repr

/-- A store result (`models/size_chart.py`; the timestamp field is out of
scope). -/
structure StoreResult where
  store_name : String
  products : List Product
  errors : List String
deriving DecidableEq, Repr

/-- One step of the product loop of `extract_all` (`base.py` 209-219): a
raising extraction is caught and recorded; a product is kept only when it is
returned and carries a size chart. -/
def extractAllStep (f : String → Except String (Option Product))
    (acc : List Product × List String) (url : String) : List Product × List String :=
  match f url with
  | .error e => (acc.1, acc.2 ++ ["Error extracting " ++ url ++ ": " ++ e])
  | .ok none => acc
  | .ok (some p) => if p.size_chart.isSome then (acc.1 ++ [p], acc.2) else acc

/-- Embedding of `extract_all` (`base.py` 200-231).  `getUrls` is the outcome
of `get_product_urls` (its failure is caught by the outer `try` of lines
204-224); `f` is `extract_size_chart` for one URL. -/
def extract_all (store : String) (getUrls : Except String (List String))
    (f : String → Except String (Option Product)) : StoreResult :=
  match getUrls with
  | .error e =>
    { store_name := store, products := [],
      errors := ["Error getting product URLs: " ++ e] }
  | .ok urls =>
    let r := urls.foldl (extractAllStep f) ([], [])
    { store_name := store, products := r.1, errors := r.2 }

/-- Embedding of `extract_with_semaphore` (`service.py` 54-65): a raising
store extraction is converted into an empty `StoreResult` with one error. -/
def extractWithSemaphore (storeUrl : String) (run : Except String StoreResult) :
    StoreResult :=
  match run with
  | .ok r => r
  | .error e =>
    { store_name := storeUrl, products := [],
      errors := ["Extraction failed: " ++ e] }

/-- Embedding of `extract_stores` (`service.py` 51-70): every store yields a
result. -/
def extract_stores (stores : List String)
    (run : String → Except String StoreResult) : List StoreResult :=
  stores.map fun s => extractWithSemaphore s (run s)

/-- A key/value column pair of the vision-model response
(`models/size_chart.py`, `KeyValuePair`). -/
structure KeyValuePair where
  key : String
  value : String
deriving DecidableEq, Repr

/-- A row of the vision-model response (`SizeChartRow`). -/
structure SizeChartRow where
  columns : List KeyValuePair
deriving DecidableEq, Repr

/-- The vision-model chart shape (`SizeChartGemini`). -/
structure SizeChartGemini where
  headers : List String
  rows : List SizeChartRow
deriving DecidableEq, Repr

/-- The vision-model extraction result (`GeminiSizeChartExtractionResult`);
its confidence field, constrained to [0,1], is never consulted by the code
and is modelled exactly in hundredths. -/
structure GeminiResult where
  size_chart : Option SizeChartGemini
  confidence : Nat
  has_size_chart : Bool
deriving DecidableEq, Repr

/-- Python dict assignment `row_dict[key] = value` on `String` keys. -/
def strDictInsert (k v : String) : List (String × String) → List (String × String)
  | [] => [(k, v)]
  | (k₀, v₀) :: rest =>
    if k₀ = k then (k₀, v) :: rest else (k₀, v₀) :: strDictInsert k v rest

/-- Python-dict flattening of one response row (`gemini_extractor.py`
119-124): later duplicate keys overwrite earlier values in place. -/
def flattenRow (r : SizeChartRow) : List (String × String) :=
  r.columns.foldl (fun d kv => strDictInsert kv.key kv.value d) []

/-- Embedding of `_convert_to_standard_format` (`gemini_extractor.py`
115-126): headers are kept unchanged and each row's pairs are flattened into
a mapping. -/
def convert_to_standard_format (g : SizeChartGemini) : SizeChart :=
  { headers := g.headers, rows := g.rows.map flattenRow }

/-- The decision of `extract_table` after the model call
(`gemini_extractor.py` 104-109, plus the `None` returns of lines 95-97 and
111-113 for failed fetches, modelled as the `none` argument): a chart is
produced only when the response exists, its found-flag is set and it carries
a chart. -/
def extract_table_outcome (result : Option GeminiResult) : Option SizeChart :=
  match result with
  | none => none
  | some r =>
    if r.has_size_chart then
      match r.size_chart with
      | some g => some (convert_to_standard_format g)
      | none => none
    else none

/-! ## Lemmas about row construction -/

theorem dictInsert_key_mem {P : List Char → Prop} {k v : List Char}
    (d : List (List Char × List Char)) (hd : ∀ kv ∈ d, P kv.1) (hk : P k) :
    ∀ kv ∈ dictInsert k v d, P kv.1 := by
  induction d with
  | nil => simpa [dictInsert] using hk
  | cons hd₀ tl ih =>
    obtain ⟨k₀, v₀⟩ := hd₀
    intro kv hkv
    rw [dictInsert] at hkv
    by_cases hk₀ : k₀ = k
    · simp only [hk₀, if_pos rfl] at hkv
      rcases List.mem_cons.mp hkv with h | h
      · subst h; simpa [hk₀] using hk
      · exact hd _ (List.mem_cons_of_mem _ h)
    · simp only [if_neg hk₀] at hkv
      rcases List.mem_cons.mp hkv with h | h
      · subst h; exact hd _ (List.mem_cons_self _ _)
      · exact ih (fun kv h => hd kv (List.mem_cons_of_mem _ h)) kv h

theorem buildRowAux_skip (headers : List (List Char)) :
    ∀ (cells : List Node) (i : Nat) rd, headers.length ≤ i →
      buildRowAux headers i cells rd = rd := by
  intro cells
  induction cells with
  | nil => intro i rd _; rfl
  | cons c cs ih =>
    intro i rd hle
    rw [buildRowAux, if_pos hle]
    exact ih (i + 1) rd (Nat.le_succ_of_le hle)

theorem buildRowAux_key_mem (headers : List (List Char)) :
    ∀ (cells : List Node) (i : Nat) rd, (∀ kv ∈ rd, kv.1 ∈ headers) →
      ∀ kv ∈ buildRowAux headers i cells rd, kv.1 ∈ headers := by
  intro cells
  induction cells with
  | nil => intro i rd h; exact h
  | cons c cs ih =>
    intro i rd h
    rw [buildRowAux]
    by_cases hle : headers.length ≤ i
    · rw [if_pos hle]; exact ih _ _ h
    · rw [if_neg hle]
      refine ih _ _ ?_
      refine dictInsert_key_mem rd h ?_
      have hi : i < headers.length := Nat.lt_of_not_le hle
      rw [List.getD_eq_getElem _ _ hi]
      exact List.getElem_mem hi

theorem buildRowData_key_mem (headers : List (List Char)) (cells : List Node) :
    ∀ kv ∈ buildRowData headers cells, kv.1 ∈ headers :=
  buildRowAux_key_mem headers cells 0 [] (by simp)

theorem buildRowData_nilHeaders (cells : List Node) :
    buildRowData [] cells = [] :=
  buildRowAux_skip [] cells 0 [] (Nat.zero_le _)

theorem buildRowAux_take (headers : List (List Char)) :
    ∀ (cells : List Node) (i : Nat) rd,
      buildRowAux headers i cells rd =
        buildRowAux headers i (cells.take (headers.length - i)) rd := by
  intro cells
  induction cells with
  | nil => intro i rd; simp
  | cons c cs ih =>
    intro i rd
    by_cases hle : headers.length ≤ i
    · rw [buildRowAux_skip _ _ _ _ hle, Nat.sub_eq_zero_of_le hle, List.take_zero]
      rfl
    · have hi : i < headers.length := Nat.lt_of_not_le hle
      have : headers.length - i = (headers.length - (i + 1)) + 1 := by omega
      rw [this, List.take_succ_cons]
      simp only [buildRowAux, if_neg hle]
      exact ih (i + 1) _

theorem buildRowData_take (headers : List (List Char)) (cells : List Node) :
    buildRowData headers cells = buildRowData headers (cells.take headers.length) := by
  have := buildRowAux_take headers cells 0 []
  simpa [buildRowData] using this

theorem dictInsert_of_not_mem {k : List Char} (v : List Char)
    (d : List (List Char × List Char)) (h : ∀ kv ∈ d, kv.1 ≠ k) :
    dictInsert k v d = d ++ [(k, v)] := by
  induction d with
  | nil => rfl
  | cons hd₀ tl ih =>
    obtain ⟨k₀, v₀⟩ := hd₀
    rw [dictInsert, if_neg (h (k₀, v₀) (List.mem_cons_self _ _)), List.cons_append]
    rw [ih (fun kv hkv => h kv (List.mem_cons_of_mem _ hkv))]

theorem getElem_not_mem_take {α : Type} {l : List α} {i : Nat} (hnd : l.Nodup)
    (hi : i < l.length) : l[i] ∉ l.take i := by
  have hsplit : l.take i ++ l.drop i = l := List.take_append_drop i l
  have hnd' : (l.take i ++ l.drop i).Nodup := by rw [hsplit]; exact hnd
  have hdisj := (List.nodup_append.mp hnd').2.2
  have hmem : l[i] ∈ l.drop i := by
    rw [List.drop_eq_getElem_cons hi]; exact List.mem_cons_self _ _
  exact fun hc => hdisj hc hmem

theorem take_succ_of_lt {α : Type} {l : List α} {i : Nat} (hi : i < l.length) :
    l.take (i + 1) = l.take i ++ [l[i]] := by
  rw [List.take_succ, List.getElem?_eq_getElem hi]
  rfl

theorem buildRowAux_zip (headers : List (List Char)) (hnd : headers.Nodup) :
    ∀ (cells : List Node) (i : Nat) rd,
      (∀ kv ∈ rd, kv.1 ∈ headers.take i) →
      buildRowAux headers i cells rd =
        rd ++ ((headers.drop i).zip cells).map
          (fun p => (p.1, cellValue headers p.1 p.2)) := by
  intro cells
  induction cells with
  | nil => intro i rd _; simp [buildRowAux]
  | cons c cs ih =>
    intro i rd hrd
    by_cases hle : headers.length ≤ i
    · rw [buildRowAux_skip _ _ _ _ hle, List.drop_eq_nil_of_le hle]
      simp
    · have hi : i < headers.length := Nat.lt_of_not_le hle
      rw [buildRowAux, if_neg hle]
      have hkey : headers.getD i [] = headers[i] := List.getD_eq_getElem _ _ hi
      have hnotin : ∀ kv ∈ rd, kv.1 ≠ headers.getD i [] := by
        intro kv hkv heq
        have h1 : kv.1 ∈ headers.take i := hrd kv hkv
        rw [heq, hkey] at h1
        exact getElem_not_mem_take hnd hi h1
      rw [dictInsert_of_not_mem _ rd hnotin]
      have hstep : ∀ kv ∈ rd ++ [(headers.getD i [],
          cellValue headers (headers.getD i []) c)], kv.1 ∈ headers.take (i + 1) := by
        intro kv hkv
        rw [take_succ_of_lt hi]
        rcases List.mem_append.mp hkv with h | h
        · exact List.mem_append_left _ (hrd kv h)
        · rcases List.mem_singleton.mp h with rfl
          exact List.mem_append_right _ (by rw [List.mem_singleton]; exact hkey)
      rw [ih (i + 1) _ hstep]
      have hdrop : headers.drop i = headers[i] :: headers.drop (i + 1) :=
        List.drop_eq_getElem_cons hi
      rw [hdrop, List.zip_cons_cons, List.map_cons, List.append_assoc, hkey]
      rfl

theorem buildRowData_zip (headers : List (List Char)) (cells : List Node)
    (hnd : headers.Nodup) :
    buildRowData headers cells =
      (headers.zip cells).map (fun p => (p.1, cellValue headers p.1 p.2)) := by
  have := buildRowAux_zip headers hnd cells 0 [] (by simp)
  simpa [buildRowData] using this

theorem rowStep_cases (headers : List (List Char)) (acc) (tr : Node) (row)
    (h : row ∈ rowStep headers acc tr) :
    row ∈ acc ∨ row = buildRowData headers (findAllNodes ["td", "th"] tr) := by
  simp only [rowStep] at h
  split_ifs at h
  · exact Or.inl h
  · exact Or.inl h
  · exact Or.inl h
  · rcases List.mem_append.mp h with h | h
    · exact Or.inl h
    · exact Or.inr (List.mem_singleton.mp h)

theorem rows_foldl_mem (headers : List (List Char)) :
    ∀ (trs : List Node) acc row, row ∈ trs.foldl (rowStep headers) acc →
      row ∈ acc ∨ ∃ tr ∈ trs, row = buildRowData headers (findAllNodes ["td", "th"] tr) := by
  intro trs
  induction trs with
  | nil => intro acc row h; exact Or.inl h
  | cons tr trs ih =>
    intro acc row h
    rw [List.foldl_cons] at h
    rcases ih _ row h with h' | ⟨tr', htr', heq⟩
    · rcases rowStep_cases headers acc tr row h' with h'' | h''
      · exact Or.inl h''
      · exact Or.inr ⟨tr, List.mem_cons_self _ _, h''⟩
    · exact Or.inr ⟨tr', List.mem_cons_of_mem _ htr', heq⟩

theorem rowStep_nilHeaders (acc) (tr : Node) : rowStep [] acc tr = acc := by
  simp only [rowStep]
  split_ifs with h1 h2 h3
  · rfl
  · rfl
  · rfl
  · exact absurd (buildRowData_nilHeaders _) (by simpa using h3)

theorem rowsOfWith_nilHeaders (t : Node) : rowsOfWith [] t = [] := by
  unfold rowsOfWith
  generalize findAllNodes ["tr"] (tbodyOf t) = trs
  suffices h : ∀ acc, trs.foldl (rowStep []) acc = acc from h []
  induction trs with
  | nil => intro acc; rfl
  | cons tr trs ih => intro acc; rw [List.foldl_cons, rowStep_nilHeaders]; exact ih acc

/-- C10: if `extract_table_data` returns an empty header list it also returns
an empty row list — every row mapping only draws keys from the headers and
empty mappings are dropped — so nonempty rows force nonempty headers, and the
downstream test "headers and rows both nonempty" is equivalent to testing the
rows alone. -/
theorem claim_C10 : ∀ t : Node,
    ((extract_table_data t).1 = [] → (extract_table_data t).2 = []) ∧
    (((extract_table_data t).1 ≠ [] ∧ (extract_table_data t).2 ≠ []) ↔
      (extract_table_data t).2 ≠ []) := by
  intro t
  have key : (extract_table_data t).1 = [] → (extract_table_data t).2 = [] := by
    intro h
    unfold extract_table_data at h ⊢
    simp only at h ⊢
    rw [h]
    exact rowsOfWith_nilHeaders t
  refine ⟨key, ?_, fun h2 => ⟨fun h1 => h2 (key h1), h2⟩⟩
  rintro ⟨_, h2⟩
  exact h2

/-- C10 witness: a table whose first row is all `<td>` (and no `<thead>`)
yields empty headers, hence empty rows. -/
theorem claim_C10_witness :
    (extract_table_data (Node.elem "table" [] []
      (nl [Node.elem "tr" [] [] (nl [Node.elem "td" [] [] (nl [Node.text (cs "x")])])]))).2 = [] :=
  (claim_C10 _).1 (by decide)

/-- C1: every row mapping's keys come from the header list; each row is built
from the cells of one `<tr>` of the body section; cells past the header count
are dropped (`take`); and, for duplicate-free headers, the mapping is exactly
the positional zip of headers with cells (the i-th cell's value keyed by the
i-th header). -/
theorem claim_C1 :
    (∀ t row, row ∈ (extract_table_data t).2 →
      (∀ kv ∈ row, kv.1 ∈ (extract_table_data t).1) ∧
      ∃ tr ∈ findAllNodes ["tr"] (tbodyOf t),
        row = buildRowData (extract_table_data t).1 (findAllNodes ["td", "th"] tr)) ∧
    (∀ headers cells,
      buildRowData headers cells = buildRowData headers (cells.take headers.length)) ∧
    (∀ headers cells, headers.Nodup →
      buildRowData headers cells =
        (headers.zip cells).map fun p => (p.1, cellValue headers p.1 p.2)) := by
  refine ⟨?_, buildRowData_take, buildRowData_zip⟩
  intro t row hrow
  have hmem : row ∈ rowsOfWith (headersOf t) t := hrow
  unfold rowsOfWith at hmem
  rcases rows_foldl_mem _ _ _ _ hmem with h | ⟨tr, htr, heq⟩
  · exact absurd h (List.not_mem_nil row)
  · subst heq
    exact ⟨buildRowData_key_mem _ _, tr, htr, rfl⟩

/-- Element constructors shared by the concrete examples below. -/
def exTh (s : String) : Node := .elem "th" [] [] (nl [.text (cs s)])

/-- A `<td>` cell holding the given text. -/
def exTd (s : String) : Node := .elem "td" [] [] (nl [.text (cs s)])

/-- A `<tr>` row with the given cells. -/
def exTr (cells : List Node) : Node := .elem "tr" [] [] (nl cells)

/-- The three-column table of the repository's
`test_extract_table_data_with_thead` unit test. -/
def c1tbl : Node :=
  .elem "table" [] []
    (nl [.elem "thead" [] [] (nl [exTr [exTh "Size", exTh "Chest", exTh "Waist"]]),
         .elem "tbody" [] [] (nl [exTr [exTd "S", exTd "36", exTd "30"],
                                  exTr [exTd "M", exTd "38", exTd "32"]])])

/-- C1 witness: the claim applied to the unit-test table and its first row. -/
theorem claim_C1_witness :
    (∀ kv ∈ [(cs "Size", cs "S"), (cs "Chest", cs "36"), (cs "Waist", cs "30")],
      kv.1 ∈ (extract_table_data c1tbl).1) ∧
    buildRowData [cs "Size"] [exTd "S", exTd "36"] =
      buildRowData [cs "Size"] ([exTd "S", exTd "36"].take 1) ∧
    buildRowData [cs "Size", cs "Chest"] [exTd "S", exTd "36"] =
      ([cs "Size", cs "Chest"].zip [exTd "S", exTd "36"]).map
        (fun p => (p.1, cellValue [cs "Size", cs "Chest"] p.1 p.2)) :=
  ⟨(claim_C1.1 c1tbl _ (by decide)).1,
   claim_C1.2.1 [cs "Size"] [exTd "S", exTd "36"],
   claim_C1.2.2 [cs "Size", cs "Chest"] [exTd "S", exTd "36"] (by decide)⟩

/-- The first row of the C6 counterexample table: a `<th>` followed by a
`<td>`, so the row is not all header-tagged and has no header classes. -/
def c6row : Node := exTr [exTh "A", exTd "B"]

/-- A table without `<thead>` whose first row mixes `th` and `td` cells. -/
def c6tbl : Node := .elem "table" [] [] (nl [c6row, exTr [exTd "x", exTd "y"]])

/-- C6 counterexample: the claim states that, absent a header section, headers
are taken from the first row only if its cells are all header-tagged or all
header-classed.  In `c6tbl` the first row is `th`+`td` — neither condition
holds — yet `extract_table_data` takes the headers, because the code only
inspects the first cell's tag (`parser.py` line 37). -/
theorem claim_C6_counterexample :
    theadHeaders c6tbl = [] ∧
    findElem ["tr"] c6tbl = some c6row ∧
    headersOf c6tbl = [cs "A", cs "B"] ∧
    (findAllNodes ["th", "td"] c6row).all (fun c => decide (nodeName c = "th")) = false ∧
    (findAllNodes ["th", "td"] c6row).all headerClassCond = false :=
  ⟨rfl, rfl, rfl, rfl, rfl⟩

/-- C6 (amended): when the table has no usable header section, headers are
taken from the table's first row iff that row has cells and either its first
cell is a `<th>` or all of its cells carry a class containing `"header"`;
otherwise the header list stays empty. -/
theorem claim_C6 : ∀ t : Node, theadHeaders t = [] →
    ((headersOf t ≠ []) ↔ ∃ fr, findElem ["tr"] t = some fr ∧
      findAllNodes ["th", "td"] fr ≠ [] ∧
      (firstIsTh (findAllNodes ["th", "td"] fr) = true ∨
        (findAllNodes ["th", "td"] fr).all headerClassCond = true)) ∧
    (∀ fr, findElem ["tr"] t = some fr →
      (firstIsTh (findAllNodes ["th", "td"] fr) = true ∨
        (findAllNodes ["th", "td"] fr).all headerClassCond = true) →
      headersOf t = (findAllNodes ["th", "td"] fr).map fun c => clean_text (getTextOne c)) := by
  intro t ht
  have huf : headersOf t = (match findElem ["tr"] t with
      | some fr =>
        if !(findAllNodes ["th", "td"] fr).isEmpty &&
            (firstIsTh (findAllNodes ["th", "td"] fr) ||
              (findAllNodes ["th", "td"] fr).all headerClassCond) then
          (findAllNodes ["th", "td"] fr).map (fun c => clean_text (getTextOne c))
        else []
      | none => []) := by
    unfold headersOf
    rw [ht]
    rfl
  cases hfe : findElem ["tr"] t with
  | none =>
    rw [hfe] at huf
    refine ⟨⟨fun hne => absurd huf hne, ?_⟩, ?_⟩
    · rintro ⟨fr, hfr, -⟩
      exact absurd hfr (by simp)
    · intro fr hfr
      exact absurd hfr (by simp)
  | some fr =>
    rw [hfe] at huf
    set cells := findAllNodes ["th", "td"] fr with hcells
    by_cases hc : (!cells.isEmpty && (firstIsTh cells || cells.all headerClassCond)) = true
    · simp only [hc, if_pos] at huf
      have hcnil : cells ≠ [] := by
        rcases Bool.and_eq_true .. |>.mp hc with ⟨h1, -⟩
        simpa [List.isEmpty_iff] using h1
      constructor
      · constructor
        · intro _
          refine ⟨fr, rfl, hcnil, ?_⟩
          rcases Bool.and_eq_true .. |>.mp hc with ⟨-, h2⟩
          exact Bool.or_eq_true .. |>.mp h2
        · intro _
          rw [huf]
          simpa using hcnil
      · intro fr' hfr' _
        have heq : fr' = fr := by injection hfr' with h; exact h.symm
        rw [heq, huf]
    · simp only [hc, if_neg, Bool.false_eq_true, not_false_eq_true, if_false] at huf
      constructor
      · constructor
        · intro hne; exact absurd huf hne
        · rintro ⟨fr', hfr', hne, hcond⟩
          have hfr : fr' = fr := by injection hfr' with h; exact h.symm
          subst hfr
          refine absurd ?_ hc
          rw [Bool.and_eq_true]
          exact ⟨by simpa [List.isEmpty_iff] using hne, Bool.or_eq_true .. |>.mpr hcond⟩
      · intro fr' hfr' hcond
        have hfr : fr' = fr := by injection hfr' with h; exact h.symm
        subst hfr
        have hnil : cells = [] := by
          by_contra hne
          refine absurd ?_ hc
          rw [Bool.and_eq_true]
          exact ⟨by simpa [List.isEmpty_iff] using hne, Bool.or_eq_true .. |>.mpr hcond⟩
        rw [huf, ← hcells, hnil]
        rfl

/-- A table without `<thead>` whose first row is entirely `<th>` cells, from
the repository's `test_extract_table_data_without_thead` unit test. -/
def c6wtbl : Node :=
  .elem "table" [] []
    (nl [exTr [exTh "Size", exTh "Length"],
         exTr [exTd "Small", exTd "25"], exTr [exTd "Medium", exTd "27"]])

/-- C6 witness: the amended claim applied to the all-`<th>`-first-row table. -/
theorem claim_C6_witness :
    headersOf c6wtbl =
      (findAllNodes ["th", "td"] (exTr [exTh "Size", exTh "Length"])).map
        (fun c => clean_text (getTextOne c)) :=
  (claim_C6 c6wtbl (by decide)).2 _ rfl (Or.inl (by decide))

/-! ## Lemmas for store extraction (C5, C9) -/

theorem extractAll_foldl_shift (f : String → Except String (Option Product)) :
    ∀ (urls : List String) (ps : List Product) (es : List String),
      urls.foldl (extractAllStep f) (ps, es) =
        (ps ++ (urls.foldl (extractAllStep f) ([], [])).1,
         es ++ (urls.foldl (extractAllStep f) ([], [])).2) := by
  intro urls
  induction urls with
  | nil => intro ps es; simp
  | cons u urls ih =>
    intro ps es
    rw [List.foldl_cons, List.foldl_cons]
    cases hfu : f u with
    | error e =>
      simp only [extractAllStep, hfu]
      rw [ih ps (es ++ ["Error extracting " ++ u ++ ": " ++ e]),
        ih [] ([] ++ ["Error extracting " ++ u ++ ": " ++ e])]
      simp
    | ok po =>
      cases po with
      | none =>
        simp only [extractAllStep, hfu]
        rw [ih ps es]
      | some p =>
        simp only [extractAllStep, hfu]
        by_cases hc : p.size_chart.isSome = true
        · simp only [hc, if_pos]
          rw [ih (ps ++ [p]) es, ih ([] ++ [p]) []]
          simp
        · simp only [hc, if_neg, Bool.not_eq_true, if_false]
          rw [ih ps es]

theorem extractAll_allFail (f : String → Except String (Option Product)) :
    ∀ urls : List String, (∀ u ∈ urls, ∃ e, f u = Except.error e) →
      (urls.foldl (extractAllStep f) ([], [])).1 = [] ∧
      (urls.foldl (extractAllStep f) ([], [])).2.length = urls.length := by
  intro urls
  induction urls with
  | nil => intro _; exact ⟨rfl, rfl⟩
  | cons u urls ih =>
    intro h
    obtain ⟨e, he⟩ := h u (List.mem_cons_self _ _)
    have hrest := ih fun u hu => h u (List.mem_cons_of_mem _ hu)
    rw [List.foldl_cons]
    simp only [extractAllStep, he]
    rw [extractAll_foldl_shift f urls [] ([] ++ _)]
    constructor
    · simpa using hrest.1
    · simpa using hrest.2

/-- C5: a raising product extraction is caught, recorded as one error entry
and skipped — the surrounding products are unaffected; a store whose
discovery raises, or all of whose products raise, still yields a
`StoreResult` with no products and populated errors; and a raising store
extraction is converted by the service layer into an error `StoreResult`
rather than propagating. -/
theorem claim_C5 :
    (∀ store urls f, (∀ u ∈ urls, ∃ e, f u = Except.error e) →
      (extract_all store (.ok urls) f).products = [] ∧
      (extract_all store (.ok urls) f).errors.length = urls.length ∧
      (urls ≠ [] → (extract_all store (.ok urls) f).errors ≠ [])) ∧
    (∀ store e f, extract_all store (.error e) f =
      { store_name := store, products := [],
        errors := ["Error getting product URLs: " ++ e] }) ∧
    (∀ store f pre u post e, f u = Except.error e →
      (extract_all store (.ok (pre ++ u :: post)) f).products =
        (extract_all store (.ok (pre ++ post)) f).products) ∧
    (∀ storeUrl e, extractWithSemaphore storeUrl (.error e) =
      { store_name := storeUrl, products := [],
        errors := ["Extraction failed: " ++ e] }) := by
  refine ⟨?_, fun store e f => rfl, ?_, fun storeUrl e => rfl⟩
  · intro store urls f h
    have hall := extractAll_allFail f urls h
    refine ⟨hall.1, hall.2, fun hne hcon => ?_⟩
    have h2 : ((urls.foldl (extractAllStep f) ([], [])).2 : List String) = [] := hcon
    have hlen : urls.length = 0 := by rw [← hall.2, h2]; rfl
    exact hne (List.length_eq_zero.mp hlen)
  · intro store f pre u post e he
    show (((pre ++ u :: post).foldl (extractAllStep f) ([], [])).1 : List Product) =
      ((pre ++ post).foldl (extractAllStep f) ([], [])).1
    rw [List.foldl_append, List.foldl_append, List.foldl_cons]
    have hstep : extractAllStep f (pre.foldl (extractAllStep f) ([], [])) u =
        ((pre.foldl (extractAllStep f) ([], [])).1,
         (pre.foldl (extractAllStep f) ([], [])).2 ++
           ["Error extracting " ++ u ++ ": " ++ e]) := by
      simp [extractAllStep, he]
    rw [hstep,
      extractAll_foldl_shift f post ((pre.foldl (extractAllStep f) ([], [])).1) _,
      extractAll_foldl_shift f post ((pre.foldl (extractAllStep f) ([], [])).1)
        ((pre.foldl (extractAllStep f) ([], [])).2)]
  -- the remaining goals were discharged by the refine

/-- C5 witness: a store whose discovery works but both products raise. -/
theorem claim_C5_witness :
    ((extract_all "s" (.ok ["u1", "u2"]) fun _ => Except.error "boom").products = [] ∧
      (extract_all "s" (.ok ["u1", "u2"]) fun _ => Except.error "boom").errors.length = 2 ∧
      (["u1", "u2"] ≠ [] →
        (extract_all "s" (.ok ["u1", "u2"]) fun _ => Except.error "boom").errors ≠ [])) ∧
    (extract_all "s" (.ok (["a"] ++ "u" :: ["b"])) fun _ => Except.error "x").products =
      (extract_all "s" (.ok (["a"] ++ ["b"])) fun _ => Except.error "x").products :=
  ⟨claim_C5.1 "s" ["u1", "u2"] (fun _ => Except.error "boom")
      (fun _ _ => ⟨"boom", rfl⟩),
   claim_C5.2.2.1 "s" (fun _ => Except.error "x") ["a"] "u" ["b"] "x" rfl⟩

theorem extractAll_products_chart (f : String → Except String (Option Product)) :
    ∀ (urls : List String) (acc : List Product × List String),
      (∀ p ∈ acc.1, p.size_chart.isSome = true) →
      ∀ p ∈ (urls.foldl (extractAllStep f) acc).1, p.size_chart.isSome = true := by
  intro urls
  induction urls with
  | nil => intro acc h; exact h
  | cons u urls ih =>
    intro acc h
    rw [List.foldl_cons]
    refine ih _ ?_
    cases hfu : f u with
    | error e => simpa [extractAllStep, hfu] using h
    | ok po =>
      cases po with
      | none => simpa [extractAllStep, hfu] using h
      | some p =>
        by_cases hc : p.size_chart.isSome = true
        · simp only [extractAllStep, hfu, hc, if_pos]
          intro q hq
          rcases List.mem_append.mp hq with hq | hq
          · exact h q hq
          · rcases List.mem_singleton.mp hq with rfl
            exact hc
        · simpa [extractAllStep, hfu, hc] using h

/-- C9: when the vision-model result has a false found-flag or no chart, the
image path yields no size chart (likewise when the call itself failed), and
such a product cannot appear in a store's final product list (the
`product.size_chart` filter of `extract_all`); when the flag is true and a
chart is present, it is normalized by keeping the headers unchanged and
flattening each row's key/value pairs into a mapping. -/
theorem claim_C9 :
    (∀ r : GeminiResult, r.has_size_chart = false ∨ r.size_chart = none →
      extract_table_outcome (some r) = none) ∧
    extract_table_outcome none = none ∧
    (∀ (r : GeminiResult) (g : SizeChartGemini),
      r.has_size_chart = true → r.size_chart = some g →
      extract_table_outcome (some r) =
        some { headers := g.headers, rows := g.rows.map flattenRow }) ∧
    (∀ store urls f p, p ∈ (extract_all store (.ok urls) f).products →
      p.size_chart.isSome = true) := by
  refine ⟨?_, rfl, ?_, ?_⟩
  · intro r h
    rcases h with h | h
    · simp [extract_table_outcome, h]
    · cases hf : r.has_size_chart
      · simp [extract_table_outcome, hf]
      · simp [extract_table_outcome, hf, h]
  · intro r g hf hg
    simp [extract_table_outcome, hf, hg, convert_to_standard_format]
  · intro store urls f p hp
    exact extractAll_products_chart f urls ([], []) (by simp) p hp

/-- C9 witness: a found-flag-false result yields no chart; a found result is
flattened with headers kept; a store extraction returning a chartless product
keeps it out of the product list. -/
theorem claim_C9_witness :
    extract_table_outcome (some (GeminiResult.mk (some (SizeChartGemini.mk ["Size"] []))
      90 false)) = none ∧
    extract_table_outcome (some (GeminiResult.mk
      (some (SizeChartGemini.mk ["Size", "Bust"]
        [SizeChartRow.mk [KeyValuePair.mk "Size" "S", KeyValuePair.mk "Bust" "32"]]))
      90 true)) =
      some (SizeChart.mk ["Size", "Bust"] [[("Size", "S"), ("Bust", "32")]]) ∧
    (∀ p ∈ (extract_all "s" (.ok ["u"]) fun _ =>
        Except.ok (some (Product.mk "t" "u" none))).products,
      p.size_chart.isSome = true) :=
  ⟨claim_C9.1 _ (Or.inl rfl),
   claim_C9.2.2.1 _ _ rfl rfl,
   fun p hp => claim_C9.2.2.2 "s" ["u"] _ p hp⟩

/-! ## Lemmas for the discovery pipeline (C2, C3, C4) -/

theorem gpl_maxed (feed) (maxP page : Nat) (acc) (h : maxP ≤ acc.length) :
    getPagesLoop feed maxP page acc = acc := by
  rw [getPagesLoop, dif_neg (by omega)]

theorem gpl_err (feed) (maxP page : Nat) (acc) (e : String)
    (h : acc.length < maxP) (he : feed page = .error e) :
    getPagesLoop feed maxP page acc = acc := by
  rw [getPagesLoop, dif_pos h, he]

theorem gpl_empty (feed) (maxP page : Nat) (acc) (h : acc.length < maxP)
    (hp : feed page = .ok []) :
    getPagesLoop feed maxP page acc = acc := by
  rw [getPagesLoop, dif_pos h, hp]
  rfl

theorem gpl_short (feed) (maxP page : Nat) (acc) (ps : List (Option String))
    (h : acc.length < maxP) (hp : feed page = .ok ps) (hne : ps ≠ [])
    (hlt : ps.length < 250) :
    getPagesLoop feed maxP page acc = acc ++ ps.take (maxP - acc.length) := by
  rw [getPagesLoop, dif_pos h, hp]
  simp only [dif_neg (by simpa [List.isEmpty_iff] using hne : ¬ps.isEmpty = true),
    if_pos hlt]

theorem gpl_full (feed) (maxP page : Nat) (acc) (ps : List (Option String))
    (h : acc.length < maxP) (hp : feed page = .ok ps) (hne : ps ≠ [])
    (hge : ¬ps.length < 250) :
    getPagesLoop feed maxP page acc =
      getPagesLoop feed maxP (page + 1) (acc ++ ps.take (maxP - acc.length)) := by
  rw [getPagesLoop, dif_pos h, hp]
  simp only [dif_neg (by simpa [List.isEmpty_iff] using hne : ¬ps.isEmpty = true),
    if_neg hge]

theorem gpl_len_aux (feed) (maxP : Nat) :
    ∀ (fuel page : Nat) (acc : List (Option String)),
      maxP - acc.length ≤ fuel → acc.length ≤ maxP →
      (getPagesLoop feed maxP page acc).length ≤ maxP := by
  intro fuel
  induction fuel with
  | zero =>
    intro page acc hf hle
    rw [gpl_maxed feed maxP page acc (by omega)]
    exact hle
  | succ n ih =>
    intro page acc hf hle
    by_cases h : acc.length < maxP
    · cases hfp : feed page with
      | error e => rw [gpl_err feed maxP page acc e h hfp]; exact hle
      | ok ps =>
        rcases List.eq_nil_or_concat ps with rfl | -
        · rw [gpl_empty feed maxP page acc h hfp]; exact hle
        all_goals
          rcases Decidable.em (ps = []) with rfl | hne
          · rw [gpl_empty feed maxP page acc h hfp]; exact hle
          · have hlen : (acc ++ ps.take (maxP - acc.length)).length ≤ maxP := by
              have := List.length_take_le (maxP - acc.length) ps
              rw [List.length_append]
              omega
            by_cases hlt : ps.length < 250
            · rw [gpl_short feed maxP page acc ps h hfp hne hlt]
              exact hlen
            · rw [gpl_full feed maxP page acc ps h hfp hne hlt]
              refine ih (page + 1) _ ?_ hlen
              have hpos : 0 < ps.length := List.length_pos.mpr hne
              have htake : (ps.take (maxP - acc.length)).length =
                  min (maxP - acc.length) ps.length := List.length_take _ _
              rw [List.length_append]
              omega
    · rw [gpl_maxed feed maxP page acc (by omega)]; omega

theorem gpl_len (feed) (maxP : Nat) (page : Nat) (acc : List (Option String))
    (hle : acc.length ≤ maxP) : (getPagesLoop feed maxP page acc).length ≤ maxP :=
  gpl_len_aux feed maxP (maxP - acc.length) page acc le_rfl hle

theorem dedupAux_sublist (seen : List String) :
    ∀ xs : List String, List.Sublist (dedupAux seen xs) xs := by
  intro xs
  induction xs generalizing seen with
  | nil => exact List.Sublist.refl []
  | cons x xs ih =>
    rw [dedupAux]
    by_cases hx : x ∈ seen
    · rw [if_pos hx]
      exact (ih seen).cons x
    · rw [if_neg hx]
      exact (ih (x :: seen)).cons₂ x

theorem dedupAux_not_mem_seen :
    ∀ (xs : List String) (seen : List String) (x : String),
      x ∈ dedupAux seen xs → x ∉ seen := by
  intro xs
  induction xs with
  | nil => intro seen x hx; exact absurd hx (List.not_mem_nil x)
  | cons y ys ih =>
    intro seen x hx
    rw [dedupAux] at hx
    by_cases hy : y ∈ seen
    · rw [if_pos hy] at hx
      exact ih seen x hx
    · rw [if_neg hy] at hx
      rcases List.mem_cons.mp hx with rfl | hx
      · exact hy
      · intro hc
        exact ih (y :: seen) x hx (List.mem_cons_of_mem _ hc)

theorem dedupAux_nodup : ∀ (xs seen : List String), (dedupAux seen xs).Nodup := by
  intro xs
  induction xs with
  | nil => intro seen; exact List.nodup_nil
  | cons y ys ih =>
    intro seen
    rw [dedupAux]
    by_cases hy : y ∈ seen
    · rw [if_pos hy]; exact ih seen
    · rw [if_neg hy]
      refine List.nodup_cons.mpr ⟨?_, ih (y :: seen)⟩
      intro hc
      exact dedupAux_not_mem_seen ys (y :: seen) y hc (List.mem_cons_self _ _)

theorem dedupFirst_nodup (xs : List String) : (dedupFirst xs).Nodup :=
  dedupAux_nodup xs []

theorem dedupFirst_sublist (xs : List String) : List.Sublist (dedupFirst xs) xs :=
  dedupAux_sublist [] xs

theorem gpu_feed_case (w : World) (store : String) (maxP : Nat)
    (hne : handleUrls store (get_shopify_products_json w maxP) ≠ []) :
    get_product_urls w store maxP =
      (handleUrls store (get_shopify_products_json w maxP), [.feed]) := by
  unfold get_product_urls
  rw [if_pos (by simpa [List.isEmpty_iff] using hne)]

theorem gpu_fallback_case (w : World) (store : String) (maxP : Nat)
    (hfe : handleUrls store (get_shopify_products_json w maxP) = []) :
    get_product_urls w store maxP =
      ((dedupFirst (fallbackUrls w store maxP)).take maxP,
       if (collLoop w store maxP ((get_collections w store).take 10) []).isEmpty then
         [.feed, .collections, .sitemap]
       else [.feed, .collections]) := by
  unfold get_product_urls
  rw [if_neg (by simp [hfe])]

/-- The pages of the C3 scenario: 250, 250 and 10 products. -/
def c3feed : Nat → Except String (List (Option String)) := fun p =>
  if p = 1 then .ok (List.replicate 250 (some "h"))
  else if p = 2 then .ok (List.replicate 250 (some "h"))
  else if p = 3 then .ok (List.replicate 10 (some "h"))
  else .ok []

/-- The C3 scenario store. -/
def c3world : World :=
  { feed := c3feed, collectionsData := .ok [], collFeed := fun _ => .ok [],
    sitemapIndex := .ok [], subSitemap := fun _ => .ok [] }

theorem c3products : get_shopify_products_json c3world 600 =
    List.replicate 510 (some "h") := by
  have s1 : getPagesLoop c3feed 600 1 [] =
      getPagesLoop c3feed 600 2 (List.replicate 250 (some "h")) := by
    rw [gpl_full c3feed 600 1 [] (List.replicate 250 (some "h")) (by decide) rfl
      (by decide) (by decide)]
    congr 1
  have s2 : getPagesLoop c3feed 600 2 (List.replicate 250 (some "h")) =
      getPagesLoop c3feed 600 3 (List.replicate 500 (some "h")) := by
    rw [gpl_full c3feed 600 2 (List.replicate 250 (some "h"))
      (List.replicate 250 (some "h")) (by decide) rfl (by decide) (by decide)]
    congr 1
  have s3 : getPagesLoop c3feed 600 3 (List.replicate 500 (some "h")) =
      List.replicate 510 (some "h") := by
    rw [gpl_short c3feed 600 3 (List.replicate 500 (some "h"))
      (List.replicate 10 (some "h")) (by decide) rfl (by decide) (by decide)]
    decide
  show getPagesLoop c3feed 600 1 [] = _
  rw [s1, s2, s3]

theorem c3urls : (get_product_urls c3world "s" 600).1 =
    List.replicate 510 (mkProductUrl "s" "h") := by
  have hfeed : handleUrls "s" (get_shopify_products_json c3world 600) =
      List.replicate 510 (mkProductUrl "s" "h") := by
    rw [c3products]
    decide
  rw [gpu_feed_case c3world "s" 600 (by rw [hfeed]; decide), hfeed]

/-- C3: feed paging starts at page 1, accumulates up to `max_count`, stops on
a failing fetch (keeping prior pages), an empty page, or a page of fewer than
250 items, and continues on full pages; with pages of 250, 250 and 10 items
and `max_count = 600`, discovery returns exactly 510 URLs. -/
theorem claim_C3 :
    (∀ (w : World) (maxP : Nat),
      get_shopify_products_json w maxP = getPagesLoop w.feed maxP 1 []) ∧
    (∀ feed (maxP page : Nat) acc (e : String), acc.length < maxP →
      feed page = Except.error e → getPagesLoop feed maxP page acc = acc) ∧
    (∀ feed (maxP page : Nat) acc, acc.length < maxP →
      feed page = Except.ok [] → getPagesLoop feed maxP page acc = acc) ∧
    (∀ feed (maxP page : Nat) acc (ps : List (Option String)), acc.length < maxP →
      feed page = Except.ok ps → ps ≠ [] → ps.length < 250 →
      getPagesLoop feed maxP page acc = acc ++ ps.take (maxP - acc.length)) ∧
    (∀ feed (maxP page : Nat) acc (ps : List (Option String)), acc.length < maxP →
      feed page = Except.ok ps → ps ≠ [] → ¬ps.length < 250 →
      getPagesLoop feed maxP page acc =
        getPagesLoop feed maxP (page + 1) (acc ++ ps.take (maxP - acc.length))) ∧
    (∀ feed (maxP page : Nat) acc, maxP ≤ acc.length →
      getPagesLoop feed maxP page acc = acc) ∧
    (get_product_urls c3world "s" 600).1.length = 510 :=
  ⟨fun _ _ => rfl,
   fun feed maxP page acc e h he => gpl_err feed maxP page acc e h he,
   fun feed maxP page acc h hp => gpl_empty feed maxP page acc h hp,
   fun feed maxP page acc ps h hp hne hlt => gpl_short feed maxP page acc ps h hp hne hlt,
   fun feed maxP page acc ps h hp hne hge => gpl_full feed maxP page acc ps h hp hne hge,
   fun feed maxP page acc h => gpl_maxed feed maxP page acc h,
   by rw [c3urls]; decide⟩

/-- C3 witness: the stop conditions applied to one-page stores. -/
theorem claim_C3_witness :
    getPagesLoop (fun _ => Except.error "down") 5 1 [] = [] ∧
    getPagesLoop (fun p => if p = 1 then Except.ok [some "a"] else Except.error "down")
      5 1 [] = [some "a"] := by
  constructor
  · exact claim_C3.2.1 (fun _ => Except.error "down") 5 1 [] "down" (by decide) rfl
  · rw [claim_C3.2.2.2.1
      (fun p => if p = 1 then Except.ok [some "a"] else Except.error "down")
      5 1 [] [some "a"] (by decide) rfl (by decide) (by decide)]
    decide

/-- A store whose product feed lists the same handle twice. -/
def c2world : World :=
  { feed := fun p => if p = 1 then .ok [some "a", some "a"] else .ok [],
    collectionsData := .ok [], collFeed := fun _ => .ok [],
    sitemapIndex := .ok [], subSitemap := fun _ => .ok [] }

theorem c2urls : (get_product_urls c2world "s" 10).1 =
    [mkProductUrl "s" "a", mkProductUrl "s" "a"] := by
  have hp : get_shopify_products_json c2world 10 = [some "a", some "a"] := by
    show getPagesLoop c2world.feed 10 1 [] = _
    rw [gpl_short c2world.feed 10 1 [] [some "a", some "a"] (by decide) rfl
      (by decide) (by decide)]
    decide
  have hfeed : handleUrls "s" (get_shopify_products_json c2world 10) =
      [mkProductUrl "s" "a", mkProductUrl "s" "a"] := by
    rw [hp]; decide
  rw [gpu_feed_case c2world "s" 10 (by rw [hfeed]; decide), hfeed]

/-- C2 counterexample: when the structured feed yields URLs they are returned
as-is (`base.py` line 116), so a feed listing one handle twice makes
`get_product_urls` return a list with a duplicate — the dedup-and-truncate of
lines 146-148 is not applied on that path, contradicting the claim that it is
applied regardless of the producing strategy. -/
theorem claim_C2_counterexample :
    (get_product_urls c2world "s" 10).1 =
      [mkProductUrl "s" "a", mkProductUrl "s" "a"] ∧
    ¬(get_product_urls c2world "s" 10).1.Nodup := by
  refine ⟨c2urls, ?_⟩
  rw [c2urls]
  decide

/-- C2 (amended): discovery always returns at most `max_count` URLs; when the
structured feed yields at least one URL those URLs are returned as-is (capped
by feed paging but not deduplicated); only when the feed yields nothing is
the fallback result deduplicated preserving first-occurrence order and
truncated to `max_count`. -/
theorem claim_C2 :
    (∀ (w : World) (store : String) (maxP : Nat),
      (get_product_urls w store maxP).1.length ≤ maxP) ∧
    (∀ (w : World) (store : String) (maxP : Nat),
      handleUrls store (get_shopify_products_json w maxP) ≠ [] →
      (get_product_urls w store maxP).1 =
        handleUrls store (get_shopify_products_json w maxP)) ∧
    (∀ (w : World) (store : String) (maxP : Nat),
      handleUrls store (get_shopify_products_json w maxP) = [] →
      (get_product_urls w store maxP).1.Nodup ∧
      List.Sublist (get_product_urls w store maxP).1 (fallbackUrls w store maxP) ∧
      (get_product_urls w store maxP).1 =
        (dedupFirst (fallbackUrls w store maxP)).take maxP) := by
  refine ⟨?_, ?_, ?_⟩
  · intro w store maxP
    by_cases hfe : handleUrls store (get_shopify_products_json w maxP) = []
    · rw [gpu_fallback_case w store maxP hfe]
      exact List.length_take_le _ _
    · rw [gpu_feed_case w store maxP hfe]
      calc (handleUrls store (get_shopify_products_json w maxP)).length
          ≤ (get_shopify_products_json w maxP).length :=
            List.length_filterMap_le _ _
        _ ≤ maxP := gpl_len w.feed maxP 1 [] (by simp)
  · intro w store maxP hne
    rw [gpu_feed_case w store maxP hne]
  · intro w store maxP hfe
    rw [gpu_fallback_case w store maxP hfe]
    refine ⟨?_, ?_, rfl⟩
    · exact (dedupFirst_nodup _).sublist (List.take_sublist _ _)
    · exact (List.take_sublist _ _).trans (dedupFirst_sublist _)

/-- C2 witness: the amended claim applied to the duplicate-handle store and
to a store whose feed is empty. -/
theorem claim_C2_witness :
    (get_product_urls c2world "s" 10).1.length ≤ 10 ∧
    (get_product_urls c2world "s" 10).1 =
      handleUrls "s" (get_shopify_products_json c2world 10) ∧
    (get_product_urls c3world "x" 0).1.Nodup :=
  ⟨claim_C2.1 c2world "s" 10,
   claim_C2.2.1 c2world "s" 10 (by
     rw [show get_shopify_products_json c2world 10 = [some "a", some "a"] by
       show getPagesLoop c2world.feed 10 1 [] = _
       rw [gpl_short c2world.feed 10 1 [] [some "a", some "a"] (by decide) rfl
         (by decide) (by decide)]
       decide]
     decide),
   (claim_C2.2.2 c3world "x" 0 (by
     rw [show get_shopify_products_json c3world 0 = [] from
       gpl_maxed c3feed 0 1 [] (by decide)]
     rfl)).1⟩

/-- C4: the structured feed is always attempted first; when it yields zero
URLs the collection crawl runs next, and the sitemap crawl runs exactly when
both the feed and the collection crawl yielded nothing — never when the
collection crawl yielded at least one URL. -/
theorem claim_C4 : ∀ (w : World) (store : String) (maxP : Nat),
    (get_product_urls w store maxP).2.head? = some Strat.feed ∧
    (handleUrls store (get_shopify_products_json w maxP) ≠ [] ↔
      (get_product_urls w store maxP).2 = [Strat.feed]) ∧
    (handleUrls store (get_shopify_products_json w maxP) = [] →
      (get_product_urls w store maxP).2 = [Strat.feed, Strat.collections] ∨
      (get_product_urls w store maxP).2 =
        [Strat.feed, Strat.collections, Strat.sitemap]) ∧
    (Strat.sitemap ∈ (get_product_urls w store maxP).2 ↔
      (handleUrls store (get_shopify_products_json w maxP) = [] ∧
       collLoop w store maxP ((get_collections w store).take 10) [] = [])) := by
  intro w store maxP
  by_cases hfe : handleUrls store (get_shopify_products_json w maxP) = []
  · rw [gpu_fallback_case w store maxP hfe]
    by_cases hc : (collLoop w store maxP ((get_collections w store).take 10) []) = []
    · rw [if_pos (show (collLoop w store maxP ((get_collections w store).take 10)
          []).isEmpty = true by simp [hc])]
      refine ⟨rfl, ⟨fun h => absurd hfe h, fun h => by simp at h⟩, fun _ => Or.inr rfl, ?_⟩
      simp [hfe, hc]
    · rw [if_neg (by simpa [List.isEmpty_iff] using hc)]
      refine ⟨rfl, ⟨fun h => absurd hfe h, fun h => by simp at h⟩, fun _ => Or.inl rfl, ?_⟩
      constructor
      · intro hmem; simp at hmem
      · rintro ⟨-, hcoll⟩; exact absurd hcoll hc
  · rw [gpu_feed_case w store maxP hfe]
    refine ⟨rfl, ⟨fun _ => rfl, fun _ => hfe⟩, fun h => absurd h hfe, ?_⟩
    constructor
    · intro hmem; simp at hmem
    · rintro ⟨h, -⟩; exact absurd h hfe

/-- C4 witness: a store whose feed succeeds never reaches the fallbacks; a
store where feed and collections both yield nothing reaches the sitemap. -/
theorem claim_C4_witness :
    (get_product_urls c2world "s" 10).2 = [Strat.feed] ∧
    Strat.sitemap ∈ (get_product_urls c3world "x" 0).2 := by
  constructor
  · refine (claim_C4 c2world "s" 10).2.1.mp ?_
    rw [show get_shopify_products_json c2world 10 = [some "a", some "a"] by
      show getPagesLoop c2world.feed 10 1 [] = _
      rw [gpl_short c2world.feed 10 1 [] [some "a", some "a"] (by decide) rfl
        (by decide) (by decide)]
      decide]
    decide
  · refine (claim_C4 c3world "x" 0).2.2.2.mpr ⟨?_, rfl⟩
    rw [show get_shopify_products_json c3world 0 = [] from
      gpl_maxed c3feed 0 1 [] (by decide)]
    rfl

/-! ## Lemmas for the scorer (C7, C8) -/

theorem foldl_kw (w : Nat) (text : List Char) :
    ∀ (ks : List (List Char)) (c : Nat),
      ks.foldl (fun acc k => if decide (k <:+: text) then acc + w else acc) c =
        c + w * ks.countP (fun k => decide (k <:+: text)) := by
  intro ks
  induction ks with
  | nil => intro c; simp
  | cons k ks ih =>
    intro c
    rw [List.foldl_cons, List.countP_cons]
    by_cases hk : decide (k <:+: text) = true
    · rw [if_pos hk, ih, hk]
      simp only [if_pos]
      ring
    · rw [if_neg hk, ih]
      simp only [hk, Bool.false_eq_true, if_false, Nat.add_zero]

theorem kwFold_eq (w : Nat) (text : List Char) (c : Nat) :
    kwFold w text c = c + w * size_keywords.countP (fun k => decide (k <:+: text)) :=
  foldl_kw w text size_keywords c

/-- First-match-wins bonus of the ancestor walk, separated from the running
accumulator. -/
def ancBonus : List Node → Nat
  | [] => 0
  | p :: rest =>
    if nodeName p = "body" then 0
    else if ancMatch p then 30
    else ancBonus rest

theorem ancContrib_eq (anc : List Node) (c : Nat) :
    ancContrib anc c = c + ancBonus anc := by
  induction anc with
  | nil => simp [ancContrib, ancBonus]
  | cons p rest ih =>
    rw [ancContrib, ancBonus]
    by_cases hb : nodeName p = "body"
    · rw [if_pos hb, if_pos hb]; simp
    · rw [if_neg hb, if_neg hb]
      by_cases hm : ancMatch p = true
      · rw [if_pos hm, if_pos hm]
      · rw [if_neg hm, if_neg hm]; exact ih

/-- C7 (amended): when speculative normalization yields nonempty headers and
rows, the scorer adds +0.2 for EACH keyword occurring in the joined header
text (`parser.py` 111-113 accumulates across the keyword loop), plus +0.1
exactly when the row count lies in [2, 20]. -/
theorem claim_C7 : ∀ (t : Node) (anc : List Node),
    (extract_table_data t).1 ≠ [] → (extract_table_data t).2 ≠ [] →
    confidence t anc =
      kwFold 10 (tableTextLower t) 0 + patternScore (tableTextLower t) +
      ancBonus anc +
      20 * size_keywords.countP
        (fun k => decide (k <:+: headerTextLower (extract_table_data t).1)) +
      (if 2 ≤ (extract_table_data t).2.length ∧ (extract_table_data t).2.length ≤ 20
       then 10 else 0) := by
  intro t anc h1 h2
  unfold confidence
  rw [ancContrib_eq]
  rw [if_pos (show (!(extract_table_data t).1.isEmpty &&
      !(extract_table_data t).2.isEmpty) = true by
    simp [List.isEmpty_iff, h1, h2])]
  rw [show kwFold 20 (headerTextLower (extract_table_data t).1)
        (kwFold 10 (tableTextLower t) 0 + patternScore (tableTextLower t)) =
      kwFold 10 (tableTextLower t) 0 + patternScore (tableTextLower t) +
        20 * size_keywords.countP
          (fun k => decide (k <:+: headerTextLower (extract_table_data t).1)) from
    kwFold_eq 20 _ _]
  by_cases hrow : 2 ≤ (extract_table_data t).2.length ∧
      (extract_table_data t).2.length ≤ 20
  · rw [if_pos (by simpa using (show _ ∧ _ from hrow)), if_pos hrow]
    omega
  · rw [if_neg (by simpa using hrow), if_neg hrow]
    omega

/-- A table whose single header cell mentions two keywords. -/
def c7tbl : Node :=
  .elem "table" [] []
    (nl [.elem "thead" [] [] (nl [exTr [exTh "size chart"]]),
         .elem "tbody" [] [] (nl [exTr [exTd "a"], exTr [exTd "b"]])])

/-- Modelled from the claim's words: a variant scorer that adds a single +0.2
bonus if ANY keyword appears in the joined header text, to be compared with
the source scorer. -/
def claimC7confidence (t : Node) (anc : List Node) : Nat :=
  let table_text := tableTextLower t
  let c1 := kwFold 10 table_text 0
  let c2 := c1 + patternScore table_text
  let hr := extract_table_data t
  let c3 :=
    if !hr.1.isEmpty && !hr.2.isEmpty then
      let cH := c2 +
        (if size_keywords.any (fun k => decide (k <:+: headerTextLower hr.1))
         then 20 else 0)
      if 2 ≤ hr.2.length && hr.2.length ≤ 20 then cH + 10 else cH
    else c2
  ancContrib anc c3

/-- C7 counterexample: for a table whose header text is `"size chart"` (two
keywords) the source scorer adds +0.4 of header bonus — total 0.70 — while
the claimed single +0.2 bonus would give 0.50. -/
theorem claim_C7_counterexample :
    confidence c7tbl [] = 70 ∧ claimC7confidence c7tbl [] = 50 ∧
    confidence c7tbl [] ≠ claimC7confidence c7tbl [] := by
  refine ⟨?_, ?_, ?_⟩ <;> decide

/-- C7 witness: the amended decomposition applied to `c7tbl`. -/
theorem claim_C7_witness :
    confidence c7tbl [] =
      kwFold 10 (tableTextLower c7tbl) 0 + patternScore (tableTextLower c7tbl) +
      ancBonus [] +
      20 * size_keywords.countP
        (fun k => decide (k <:+: headerTextLower (extract_table_data c7tbl).1)) +
      (if 2 ≤ (extract_table_data c7tbl).2.length ∧
          (extract_table_data c7tbl).2.length ≤ 20 then 10 else 0) :=
  claim_C7 c7tbl [] (by decide) (by decide)

/-! ## String lemmas for C8: a space-free fragment of cleaned text occurs in
the raw text.  `clean_text` only collapses and strips whitespace and maps
zero-width and non-breaking spaces to spaces, so any whitespace-free infix of
a cleaned string is an infix of the original string. -/

theorem collapse_pfx {kw : List Char} (hsf : ∀ c ∈ kw, isPySpace c = false) :
    ∀ s : List Char, kw <+: collapseWs false s → kw <+: s := by
  induction kw with
  | nil => intro s _; exact List.nil_prefix
  | cons k kw ih =>
    intro s hp
    cases s with
    | nil =>
      rw [show collapseWs false [] = [] from rfl] at hp
      exact absurd (List.eq_nil_of_prefix_nil hp) (by simp)
    | cons d ds =>
      rw [collapseWs] at hp
      by_cases hd : isPySpace d = true
      · rw [if_pos hd] at hp
        have hk : k = ' ' := (List.cons_prefix_cons.mp hp).1
        have := hsf k (List.mem_cons_self _ _)
        rw [hk] at this
        exact absurd this (by decide)
      · rw [if_neg hd] at hp
        have h1 := List.cons_prefix_cons.mp hp
        exact List.cons_prefix_cons.mpr
          ⟨h1.1, ih (fun c hc => hsf c (List.mem_cons_of_mem _ hc)) ds h1.2⟩

theorem collapse_occurs {kw : List Char} (hsf : ∀ c ∈ kw, isPySpace c = false)
    (hne : kw ≠ []) :
    ∀ (s : List Char) (b : Bool), kw <:+: collapseWs b s → kw <:+: s := by
  intro s
  induction s with
  | nil =>
    intro b h
    rw [show collapseWs b [] = [] from rfl] at h
    exact absurd (List.eq_nil_of_infix_nil h) hne
  | cons d ds ih =>
    intro b h
    rw [collapseWs] at h
    by_cases hd : isPySpace d = true
    · rw [if_pos hd] at h
      cases b with
      | true =>
        exact List.infix_cons (ih true h)
      | false =>
        simp only [Bool.false_eq_true, if_false] at h
        rcases List.infix_cons_iff.mp h with hp | hi
        · cases kw with
          | nil => exact absurd rfl hne
          | cons k kw =>
            have hk : k = ' ' := (List.cons_prefix_cons.mp hp).1
            have := hsf k (List.mem_cons_self _ _)
            rw [hk] at this
            exact absurd this (by decide)
        · exact List.infix_cons (ih true hi)
    · rw [if_neg hd] at h
      rcases List.infix_cons_iff.mp h with hp | hi
      · cases kw with
        | nil => exact absurd rfl hne
        | cons k kw =>
          have h1 := List.cons_prefix_cons.mp hp
          have h2 : kw <+: ds :=
            collapse_pfx (fun c hc => hsf c (List.mem_cons_of_mem _ hc)) ds h1.2
          exact (List.cons_prefix_cons.mpr ⟨h1.1, h2⟩).isInfix
      · exact List.infix_cons (ih false hi)

theorem infix_map_exists {f : Char → Char} {kw l : List Char}
    (h : kw <:+: l.map f) : ∃ mid, mid <:+: l ∧ mid.map f = kw := by
  obtain ⟨p, s, hps⟩ := h
  refine ⟨(l.drop p.length).take kw.length, ?_, ?_⟩
  · refine ⟨l.take p.length, (l.drop p.length).drop kw.length, ?_⟩
    rw [List.append_assoc, List.take_append_drop, List.take_append_drop]
  · calc ((l.drop p.length).take kw.length).map f
        = ((l.map f).drop p.length).take kw.length := by
          rw [List.map_take, List.map_drop]
      _ = ((p ++ (kw ++ s)).drop p.length).take kw.length := by
          rw [← hps, List.append_assoc]
      _ = (kw ++ s).take kw.length := by rw [List.drop_left]
      _ = kw := List.take_left _ _

theorem map_repl_eq_self :
    ∀ (mid kw : List Char), mid.map (fun c =>
        if c.toNat = 8203 || c.toNat = 160 then ' ' else c) = kw →
      (∀ c ∈ kw, isPySpace c = false) → mid = kw := by
  intro mid
  induction mid with
  | nil => intro kw h _; exact h
  | cons d ds ih =>
    intro kw h hsf
    cases kw with
    | nil => exact absurd h (by simp)
    | cons k kw =>
      rw [List.map_cons, List.cons.injEq] at h
      have hd : d = k := by
        by_cases hc : (d.toNat = 8203 || d.toNat = 160) = true
        · rw [if_pos hc] at h
          have := hsf k (List.mem_cons_self _ _)
          rw [← h.1] at this
          exact absurd this (by decide)
        · rw [if_neg hc] at h
          exact h.1
      rw [hd, ih kw h.2 (fun c hc => hsf c (List.mem_cons_of_mem _ hc))]

theorem replaceZw_occurs {kw s : List Char} (hsf : ∀ c ∈ kw, isPySpace c = false)
    (h : kw <:+: replaceZw s) : kw <:+: s := by
  obtain ⟨mid, hmid, hmap⟩ := infix_map_exists (f := fun c =>
    if c.toNat = 8203 || c.toNat = 160 then ' ' else c) h
  rwa [map_repl_eq_self mid kw hmap hsf] at hmid

theorem pyStrip_occurs (s : List Char) : pyStrip s <:+: s := by
  have h1 : s.dropWhile isPySpace <:+ s := List.dropWhile_suffix _
  have h2 : (s.dropWhile isPySpace).reverse.dropWhile isPySpace <:+
      (s.dropWhile isPySpace).reverse := List.dropWhile_suffix _
  have h3 : pyStrip s <+: s.dropWhile isPySpace := by
    have h4 := List.reverse_prefix.mpr h2
    rwa [List.reverse_reverse] at h4
  exact h3.isInfix.trans h1.isInfix

theorem clean_text_spacefree_occurs {kw : List Char}
    (hsf : ∀ c ∈ kw, isPySpace c = false) (hne : kw ≠ []) (raw : List Char)
    (h : kw <:+: clean_text raw) : kw <:+: raw := by
  unfold clean_text at h
  have h1 : kw <:+: replaceZw (collapseWs false (pyStrip raw)) :=
    h.trans (pyStrip_occurs _)
  have h2 : kw <:+: collapseWs false (pyStrip raw) := replaceZw_occurs hsf h1
  have h3 : kw <:+: pyStrip raw := collapse_occurs hsf hne _ false h2
  exact h3.trans (pyStrip_occurs raw)

theorem pfx_split {x : Char} {B : List Char} :
    ∀ (A kw : List Char), kw <+: A ++ x :: B → (∀ c ∈ kw, c ≠ x) → kw <+: A := by
  intro A
  induction A with
  | nil =>
    intro kw h hx
    cases kw with
    | nil => exact List.nil_prefix
    | cons k kw =>
      have := (List.cons_prefix_cons.mp h).1
      exact absurd this (hx k (List.mem_cons_self _ _))
  | cons a A ih =>
    intro kw h hx
    cases kw with
    | nil => exact List.nil_prefix
    | cons k kw =>
      rw [List.cons_append] at h
      have h1 := List.cons_prefix_cons.mp h
      exact List.cons_prefix_cons.mpr
        ⟨h1.1, ih kw h1.2 (fun c hc => hx c (List.mem_cons_of_mem _ hc))⟩

theorem infix_split {x : Char} {B kw : List Char} (hne : kw ≠ [])
    (hx : ∀ c ∈ kw, c ≠ x) :
    ∀ A : List Char, kw <:+: A ++ x :: B → kw <:+: A ∨ kw <:+: B := by
  intro A
  induction A with
  | nil =>
    intro h
    rw [List.nil_append] at h
    rcases List.infix_cons_iff.mp h with hp | hi
    · cases kw with
      | nil => exact absurd rfl hne
      | cons k kw =>
        exact absurd (List.cons_prefix_cons.mp hp).1 (hx k (List.mem_cons_self _ _))
    · exact Or.inr hi
  | cons a A ih =>
    intro h
    rw [List.cons_append] at h
    rcases List.infix_cons_iff.mp h with hp | hi
    · cases kw with
      | nil => exact absurd rfl hne
      | cons k kw =>
        have h1 := List.cons_prefix_cons.mp hp
        have h2 : kw <+: A := pfx_split A kw h1.2
          (fun c hc => hx c (List.mem_cons_of_mem _ hc))
        exact Or.inl (List.cons_prefix_cons.mpr ⟨h1.1, h2⟩).isInfix
    · rcases ih hi with h' | h'
      · exact Or.inl (List.infix_cons h')
      · exact Or.inr h'

theorem joinSpace_occurs {kw : List Char} (hsf : ∀ c ∈ kw, isPySpace c = false)
    (hne : kw ≠ []) :
    ∀ hs : List (List Char), kw <:+: joinSpace hs → ∃ h ∈ hs, kw <:+: h := by
  intro hs
  induction hs with
  | nil =>
    intro h
    exact absurd (List.eq_nil_of_infix_nil h) hne
  | cons h₁ rest ih =>
    intro hinf
    cases rest with
    | nil => exact ⟨h₁, List.mem_singleton.mpr rfl, hinf⟩
    | cons h₂ t =>
      rw [joinSpace] at hinf
      have hx : ∀ c ∈ kw, c ≠ ' ' := by
        intro c hc heq
        have := hsf c hc
        rw [heq] at this
        exact absurd this (by decide)
      rcases infix_split hne hx h₁ hinf with h' | h'
      · exact ⟨h₁, List.mem_cons_self _ _, h'⟩
      · obtain ⟨h', hm, hh⟩ := ih h'
        exact ⟨h', List.mem_cons_of_mem _ hm, hh⟩

/-! ## Descendant text is an infix of the ancestor's text -/

theorem tiList (names : List String) : ∀ (ns : NodeList) (x : Node),
    x ∈ findAllList names ns → getTextOne x <:+: getTextList ns
  | .nil, x, hx => absurd hx (by simp [findAllList])
  | .cons (.text s) ns, x, hx => by
    have h1 := tiList names ns x (by simpa [findAllList] using hx)
    have h2 : getTextList (.cons (.text s) ns) = s ++ getTextList ns := rfl
    rw [h2]
    exact h1.trans (List.suffix_append _ _).isInfix
  | .cons (.elem nm cls ida ch) ns, x, hx => by
    have hfa : findAllList names (.cons (.elem nm cls ida ch) ns) =
        (if nm ∈ names then [Node.elem nm cls ida ch] else []) ++
          findAllList names ch ++ findAllList names ns := rfl
    rw [hfa] at hx
    have htext : getTextList (.cons (.elem nm cls ida ch) ns) =
        getTextList ch ++ getTextList ns := rfl
    rw [htext]
    rcases List.mem_append.mp hx with hx1 | hx2
    · rcases List.mem_append.mp hx1 with hx0 | hxc
      · have hxe : x = Node.elem nm cls ida ch := by
          by_cases hnm : nm ∈ names
          · rw [if_pos hnm] at hx0
            exact List.mem_singleton.mp hx0
          · rw [if_neg hnm] at hx0
            exact absurd hx0 (List.not_mem_nil x)
        rw [hxe]
        exact (List.prefix_append _ _).isInfix
      · exact (tiList names ch x hxc).trans (List.prefix_append _ _).isInfix
    · exact (tiList names ns x hx2).trans (List.suffix_append _ _).isInfix

theorem tiNodes (names : List String) (t x : Node)
    (hx : x ∈ findAllNodes names t) : getTextOne x <:+: getTextOne t := by
  cases t with
  | text s => exact absurd hx (List.not_mem_nil x)
  | elem nm cls ida ch => exact tiList names ch x hx

theorem head?_mem_self {α : Type} {l : List α} {a : α} (h : l.head? = some a) :
    a ∈ l :=
  List.mem_of_mem_head? (by rw [h]; rfl)

theorem findElem_text_occurs {names : List String} {t x : Node}
    (h : findElem names t = some x) : getTextOne x <:+: getTextOne t :=
  tiNodes names t x (head?_mem_self h)

/-- Every header returned by `extract_table_data` is the cleaned text of some
cell whose raw text occurs inside the table's text. -/
theorem headersOf_text (t : Node) :
    ∀ h ∈ headersOf t, ∃ raw, h = clean_text raw ∧ raw <:+: getTextOne t := by
  intro h hmem
  unfold headersOf at hmem
  by_cases hth : (theadHeaders t).isEmpty = true
  · simp only [hth, if_pos] at hmem
    cases hfe : findElem ["tr"] t with
    | none => rw [hfe] at hmem; exact absurd hmem (List.not_mem_nil h)
    | some fr =>
      rw [hfe] at hmem
      dsimp only at hmem
      by_cases hc : (!(findAllNodes ["th", "td"] fr).isEmpty &&
          (firstIsTh (findAllNodes ["th", "td"] fr) ||
            (findAllNodes ["th", "td"] fr).all headerClassCond)) = true
      · rw [if_pos hc] at hmem
        obtain ⟨cell, hcell, hcl⟩ := List.mem_map.mp hmem
        refine ⟨getTextOne cell, hcl.symm, ?_⟩
        exact (tiNodes _ fr cell hcell).trans (findElem_text_occurs hfe)
      · rw [if_neg hc] at hmem
        exact absurd hmem (List.not_mem_nil h)
  · simp only [hth, Bool.false_eq_true, if_false] at hmem
    unfold theadHeaders at hmem
    cases hfe : findElem ["thead"] t with
    | none => rw [hfe] at hmem; exact absurd hmem (List.not_mem_nil h)
    | some thead =>
      rw [hfe] at hmem
      dsimp only at hmem
      by_cases htr : truthy thead = true
      · rw [if_pos htr] at hmem
        cases hhr : findElem ["tr"] thead with
        | none => rw [hhr] at hmem; exact absurd hmem (List.not_mem_nil h)
        | some hr =>
          rw [hhr] at hmem
          dsimp only at hmem
          by_cases hhrt : truthy hr = true
          · rw [if_pos hhrt] at hmem
            obtain ⟨cell, hcell, hcl⟩ := List.mem_map.mp hmem
            refine ⟨getTextOne cell, hcl.symm, ?_⟩
            exact ((tiNodes _ hr cell hcell).trans (findElem_text_occurs hhr)).trans
              (findElem_text_occurs hfe)
          · rw [if_neg hhrt] at hmem
            exact absurd hmem (List.not_mem_nil h)
      · rw [if_neg htr] at hmem
        exact absurd hmem (List.not_mem_nil h)

theorem toLower_pySpace {c : Char} (h : isPySpace c = true) : c.toLower = c := by
  have hn : c.toNat = 32 ∨ c.toNat = 9 ∨ c.toNat = 10 ∨ c.toNat = 13 ∨
      c.toNat = 11 ∨ c.toNat = 12 ∨ c.toNat = 160 := by
    have h2 := h
    unfold isPySpace at h2
    simp only [Bool.or_eq_true, decide_eq_true_eq] at h2
    tauto
  unfold Char.toLower
  rw [if_neg (by omega)]

/-- A space-free keyword occurring in the lower-cased joined header text also
occurs in the lower-cased table text: headers are cleaned texts of descendant
cells, cleaning only removes or remaps whitespace, and the join separator is
a space the keyword cannot contain. -/
theorem header_occurs_table {kw : List Char} (hsf : ∀ c ∈ kw, isPySpace c = false)
    (hne : kw ≠ []) (t : Node)
    (h : kw <:+: headerTextLower (extract_table_data t).1) :
    kw <:+: tableTextLower t := by
  obtain ⟨mid, hmid, hmap⟩ := infix_map_exists (f := Char.toLower) h
  have hmidsf : ∀ c ∈ mid, isPySpace c = false := by
    intro c hc
    by_contra hcc
    have h1 : isPySpace c = true := by simpa using hcc
    have h2 : Char.toLower c ∈ kw := by
      rw [← hmap]
      exact List.mem_map_of_mem _ hc
    have h3 := hsf _ h2
    rw [toLower_pySpace h1, h1] at h3
    exact absurd h3 (by decide)
  have hmidne : mid ≠ [] := by
    intro hcon
    rw [hcon] at hmap
    exact hne (by simpa using hmap.symm)
  obtain ⟨hh, hhm, hhi⟩ := joinSpace_occurs hmidsf hmidne _ hmid
  obtain ⟨raw, hclean, hrawinf⟩ := headersOf_text t hh hhm
  have h4 : mid <:+: raw :=
    clean_text_spacefree_occurs hmidsf hmidne raw (hclean ▸ hhi)
  have h5 : mid <:+: getTextOne t := h4.trans hrawinf
  have h6 : kw <:+: (getTextOne t).map Char.toLower := by
    rw [← hmap]
    exact List.IsInfix.map Char.toLower h5
  exact h6

/-- When no keyword occurs in the table text, none occurs in the joined
header text either (the keyword `"size guide"` contains a space, but its
occurrence forces the space-free keyword `"size"` to occur too). -/
theorem kw_header_zero (t : Node)
    (hkw : ∀ k ∈ size_keywords, ¬(k <:+: tableTextLower t)) :
    ∀ k ∈ size_keywords, ¬(k <:+: headerTextLower (extract_table_data t).1) := by
  intro k hk hinf
  have hcases : ∀ k₀ ∈ size_keywords,
      ((∀ c ∈ k₀, isPySpace c = false) ∧ k₀ ≠ []) ∨ k₀ = cs "size guide" := by
    decide
  rcases hcases k hk with ⟨hsf, hne⟩ | rfl
  · exact hkw k hk (header_occurs_table hsf hne t hinf)
  · have hsize : cs "size" <:+: headerTextLower (extract_table_data t).1 :=
      List.IsInfix.trans (by decide) hinf
    refine hkw (cs "size") (by decide) ?_
    exact header_occurs_table (by decide) (by decide) t hsize

/-! ## The stable descending sort of scored tables -/

theorem insertDesc_mem (x : Node × Nat) :
    ∀ (l : List (Node × Nat)) (a : Node × Nat),
      a ∈ insertDesc x l ↔ a = x ∨ a ∈ l := by
  intro l
  induction l with
  | nil => intro a; simp [insertDesc]
  | cons y ys ih =>
    intro a
    rw [insertDesc]
    by_cases hxy : x.2 ≥ y.2
    · rw [if_pos hxy]
      simp [List.mem_cons]
    · rw [if_neg hxy]
      simp only [List.mem_cons, ih]
      tauto

theorem insertDesc_pairwise (x : Node × Nat) :
    ∀ l : List (Node × Nat), l.Pairwise (fun a b => b.2 ≤ a.2) →
      (insertDesc x l).Pairwise (fun a b => b.2 ≤ a.2) := by
  intro l
  induction l with
  | nil => intro _; simp [insertDesc]
  | cons y ys ih =>
    intro h
    rw [List.pairwise_cons] at h
    rw [insertDesc]
    by_cases hxy : x.2 ≥ y.2
    · rw [if_pos hxy]
      refine List.pairwise_cons.mpr ⟨?_, List.pairwise_cons.mpr h⟩
      intro b hb
      rcases List.mem_cons.mp hb with rfl | hb
      · exact hxy
      · exact (h.1 b hb).trans hxy
    · rw [if_neg hxy]
      refine List.pairwise_cons.mpr ⟨?_, ih h.2⟩
      intro b hb
      rcases (insertDesc_mem x ys b).mp hb with rfl | hb
      · omega
      · exact h.1 b hb

theorem sortByConfDesc_pairwise (l : List (Node × Nat)) :
    (sortByConfDesc l).Pairwise (fun a b => b.2 ≤ a.2) := by
  induction l with
  | nil => simp [sortByConfDesc]
  | cons x xs ih => exact insertDesc_pairwise x _ ih

theorem sortByConfDesc_mem (l : List (Node × Nat)) (a : Node × Nat) :
    a ∈ sortByConfDesc l ↔ a ∈ l := by
  induction l with
  | nil => simp [sortByConfDesc]
  | cons x xs ih =>
    rw [sortByConfDesc, insertDesc_mem, ih, List.mem_cons]

theorem insertDesc_filter (x : Node × Nat) (s : Nat) :
    ∀ l : List (Node × Nat),
      (insertDesc x l).filter (fun p => p.2 == s) =
        if x.2 = s then x :: l.filter (fun p => p.2 == s)
        else l.filter (fun p => p.2 == s) := by
  intro l
  induction l with
  | nil =>
    rw [show insertDesc x [] = [x] from rfl, List.filter_cons, List.filter_nil]
    by_cases hx : x.2 = s
    · rw [if_pos (by simpa using hx), if_pos hx]
    · rw [if_neg (by simpa using hx), if_neg hx]
  | cons y ys ih =>
    rw [insertDesc]
    by_cases hxy : x.2 ≥ y.2
    · rw [if_pos hxy]
      simp only [List.filter_cons]
      by_cases hx : x.2 = s
      · simp [hx]
      · simp [hx]
    · rw [if_neg hxy]
      simp only [List.filter_cons, ih]
      by_cases hx : x.2 = s
      · have hy : ¬y.2 = s := by omega
        simp [hx, hy]
      · by_cases hy : y.2 = s
        · simp [hx, hy]
        · simp [hx, hy]

theorem sortByConfDesc_filter (s : Nat) :
    ∀ l : List (Node × Nat),
      (sortByConfDesc l).filter (fun p => p.2 == s) =
        l.filter (fun p => p.2 == s) := by
  intro l
  induction l with
  | nil => rfl
  | cons x xs ih =>
    rw [sortByConfDesc, insertDesc_filter, List.filter_cons]
    by_cases hx : x.2 = s
    · rw [if_pos hx, if_pos (by simpa using hx), ih]
    · rw [if_neg hx, if_neg (by simpa using hx), ih]

theorem fsc_mem_score (soup : Node) :
    ∀ x ∈ find_size_charts soup, 30 < x.2 := by
  intro x hx
  unfold find_size_charts at hx
  rw [sortByConfDesc_mem] at hx
  have := List.of_mem_filter hx
  simpa using this

theorem ancBonus_zero (anc : List Node) (h : ∀ a ∈ anc, ancMatch a = false) :
    ancBonus anc = 0 := by
  induction anc with
  | nil => rfl
  | cons p rest ih =>
    rw [ancBonus]
    by_cases hb : nodeName p = "body"
    · rw [if_pos hb]
    · rw [if_neg hb, if_neg (by simp [h p (List.mem_cons_self _ _)])]
      exact ih fun a ha => h a (List.mem_cons_of_mem _ ha)

/-- C8 (amended): the keyword-membership component of the score never
decreases when the table text is extended to any supertext; a table with zero
keyword matches, zero pattern matches and no size-labelled ancestor scores at
most 0.3 and cannot appear among the returned candidates; and the returned
candidates all score strictly above 0.3, sorted descending by score, with
equal-score candidates kept in document order (the full score CAN decrease
when one more keyword occurrence is added, because the insertion can change
which body rows are skipped as header duplicates or disturb regex matches —
see the counterexample). -/
theorem claim_C8 :
    (∀ (t₁ t₂ : List Char) (w c : Nat), t₁ <:+: t₂ →
      kwFold w t₁ c ≤ kwFold w t₂ c) ∧
    (∀ (soup t : Node) (anc : List Node), (t, anc) ∈ collectTables soup →
      (∀ k ∈ size_keywords, ¬(k <:+: tableTextLower t)) →
      p1Count (tableTextLower t) = 0 → p2Count (tableTextLower t) = 0 →
      p3Count (tableTextLower t) = 0 →
      (∀ a ∈ anc, ancMatch a = false) →
      confidence t anc ≤ 30 ∧ (t, confidence t anc) ∉ find_size_charts soup) ∧
    (∀ soup : Node,
      (find_size_charts soup).Pairwise (fun a b => b.2 ≤ a.2) ∧
      (∀ x ∈ find_size_charts soup, 30 < x.2) ∧
      (∀ s : Nat, (find_size_charts soup).filter (fun p => p.2 == s) =
        (((collectTables soup).map fun p => (p.1, confidence p.1 p.2)).filter
          (fun p => 30 < p.2)).filter (fun p => p.2 == s))) := by
  refine ⟨?_, ?_, ?_⟩
  · intro t₁ t₂ w c hinf
    rw [kwFold_eq, kwFold_eq]
    have : size_keywords.countP (fun k => decide (k <:+: t₁)) ≤
        size_keywords.countP (fun k => decide (k <:+: t₂)) := by
      refine List.countP_mono_left ?_
      intro k _ hk
      simp only [decide_eq_true_eq] at hk ⊢
      exact hk.trans hinf
    exact Nat.add_le_add_left (Nat.mul_le_mul_left w this) c
  · intro soup t anc hmem hkw h1 h2 h3 hanc
    have hconf : confidence t anc ≤ 30 := by
      unfold confidence
      rw [ancContrib_eq, ancBonus_zero anc hanc]
      have hkwz : kwFold 10 (tableTextLower t) 0 = 0 := by
        rw [kwFold_eq]
        rw [List.countP_eq_zero.mpr (by
          intro k hk
          simpa using hkw k hk)]
      have hpat : patternScore (tableTextLower t) = 0 := by
        unfold patternScore
        rw [h1, h2, h3]
        rfl
      rw [hkwz, hpat]
      by_cases hb : (!(extract_table_data t).1.isEmpty &&
          !(extract_table_data t).2.isEmpty) = true
      · rw [if_pos hb]
        have hhz : kwFold 20 (headerTextLower (extract_table_data t).1) (0 + 0) =
            0 := by
          rw [kwFold_eq]
          rw [List.countP_eq_zero.mpr (by
            intro k hk
            simpa using kw_header_zero t hkw k hk)]
        rw [hhz]
        by_cases hr : (2 ≤ (extract_table_data t).2.length &&
            (extract_table_data t).2.length ≤ 20) = true
        · rw [if_pos hr]; omega
        · rw [if_neg hr]; omega
      · rw [if_neg hb]; omega
    refine ⟨hconf, fun hin => ?_⟩
    have := fsc_mem_score soup _ hin
    simp only at this
    omega
  · intro soup
    refine ⟨sortByConfDesc_pairwise _, fsc_mem_score soup, fun s => ?_⟩
    exact sortByConfDesc_filter s _

/-- C8 counterexample, table A: header cell `"size size"`, body cells
`"size"` and `"m"`. -/
def c8tblA : Node :=
  .elem "table" [] []
    (nl [.elem "thead" [] [] (nl [exTr [exTh "size size"]]),
         .elem "tbody" [] [] (nl [exTr [exTd "size"], exTr [exTd "m"]])])

/-- C8 counterexample, table B: identical to A except that one more
occurrence of the keyword `"size"` was added to the first body cell, whose
text becomes `"size size"`. -/
def c8tblB : Node :=
  .elem "table" [] []
    (nl [.elem "thead" [] [] (nl [exTr [exTh "size size"]]),
         .elem "tbody" [] [] (nl [exTr [exTd "size size"], exTr [exTd "m"]])])

/-- Document holding table A directly under `body`. -/
def c8soupA : Node := .elem "[document]" [] [] (nl [.elem "body" [] [] (nl [c8tblA])])

/-- Document holding table B directly under `body`. -/
def c8soupB : Node := .elem "[document]" [] [] (nl [.elem "body" [] [] (nl [c8tblB])])

/-- C8 counterexample: adding one more occurrence of the keyword `"size"` to
table A's text (B's table text is A's with `" size"` inserted) DECREASES the
confidence from 0.40 to 0.30 — the enlarged first body cell now exactly
duplicates the header row, so it is skipped, the row count drops from 2 to 1
and the +0.1 row-count bonus is lost, while no other component grows. -/
theorem claim_C8_counterexample :
    getTextOne c8tblA = cs "size sizesizem" ∧
    getTextOne c8tblB = cs "size sizesize sizem" ∧
    confidence c8tblA [Node.elem "body" [] [] (nl [c8tblA]), c8soupA] = 40 ∧
    confidence c8tblB [Node.elem "body" [] [] (nl [c8tblB]), c8soupB] = 30 ∧
    find_size_charts c8soupA = [(c8tblA, 40)] :=
  ⟨rfl, rfl, rfl, rfl, rfl⟩

/-- A keyword-free table for the C8 witness. -/
def c8wtbl : Node := .elem "table" [] [] (nl [exTr [exTd "abc"]])

/-- The witness table's document. -/
def c8wsoup : Node := .elem "[document]" [] [] (nl [.elem "body" [] [] (nl [c8wtbl])])

/-- The witness table's ancestor chain inside `c8wsoup`. -/
def c8wanc : List Node := [Node.elem "body" [] [] (nl [c8wtbl]), c8wsoup]

/-- C8 witness: the amended claim applied to a keyword-free table. -/
theorem claim_C8_witness :
    kwFold 10 (cs "size") 0 ≤ kwFold 10 (cs "size chart") 0 ∧
    confidence c8wtbl c8wanc ≤ 30 ∧
    (c8wtbl, confidence c8wtbl c8wanc) ∉ find_size_charts c8wsoup ∧
    (find_size_charts c8wsoup).Pairwise (fun a b => b.2 ≤ a.2) := by
  have hmem : (c8wtbl, c8wanc) ∈ collectTables c8wsoup :=
    List.mem_singleton.mpr rfl
  have hmain := claim_C8.2.1 c8wsoup c8wtbl c8wanc hmem (by decide) (by decide)
    (by decide) (by decide) (by decide)
  exact ⟨claim_C8.1 (cs "size") (cs "size chart") 10 0 (by decide),
    hmain.1, hmain.2, (claim_C8.2.2 c8wsoup).1⟩

end Shoppin
